import Mathlib

/-!
# ECS: entity manager, component containers and systems

A shallow embedding of `include/ECS.h` and the properties of its specification.

Conventions of the embedding

* `unsigned int` is a natural number below `UINT_SIZE = 2 ^ 32`; `x++` stores
  `(x + 1) % UINT_SIZE`.
* `std::vector<T>` is `List T`; an iterator is a position, `end()` is `none`.
* A `TComponent*` that points into `components` is the position of the record
  in that vector.  `nullptr` is `none`.
* `std::unordered_map` is a list of entries in iteration order.  Where a new key
  lands in that order is fixed by the standard library, not by this code, and is
  a parameter (`slot`) of every operation that can insert a key.  A rehash, which
  may reorder the entries already held, is not modelled.  The cache
  `entityToComponent` is only read by key, so its order is never observed.
* A call sequence (`Op`, `run`) lists the calls made on one manager by the host
  program and by the systems, in the order they happen.
-/

set_option linter.unusedSectionVars false

namespace ECS

/-- Number of values of the type `unsigned int`. -/
def UINT_SIZE : Nat := 4294967296

/-- The type `Entity` (`typedef unsigned int Entity;`). -/
abbrev Entity := Nat

/-- The `struct Component` together with the extra fields `F` of a derived component type. -/
structure Component (F : Type) where
  componentId : Nat
  entity : Entity
  fields : F
  deriving DecidableEq, Repr

/-- Function `std::find_if(begin, end, p)`: position of the first element for which `p` holds,
`none` for `end()`. -/
def find_if {α : Type} (p : α → Bool) : List α → Option Nat
  | [] => none
  | x :: xs => if p x then some 0 else (find_if p xs).map (· + 1)

/-- Assignment `entityToComponent[entity] = pointer`: overwrite the entry of `entity`, or add one. -/
def cacheAssign (m : List (Entity × Nat)) (entity : Entity) (pointer : Nat) :
    List (Entity × Nat) :=
  match m with
  | [] => [(entity, pointer)]
  | (e, p) :: rest =>
    if e = entity then (entity, pointer) :: rest else (e, p) :: cacheAssign rest entity pointer

/-- Lookup `entityToComponent.find(entity)`, and `entityToComponent[entity]` when the key is there. -/
def cacheFind (m : List (Entity × Nat)) (entity : Entity) : Option Nat :=
  match m with
  | [] => none
  | (e, p) :: rest => if e = entity then some p else cacheFind rest entity

/-- The `class ComponentContainer<TComponent>`: the record vector, the id counter and the
entity-to-record cache. -/
structure ComponentContainer (F : Type) where
  components : List (Component F)
  lastComponentId : Nat
  entityToComponent : List (Entity × Nat)
  deriving DecidableEq, Repr

namespace ComponentContainer

variable {F : Type}

/-- Constructor `ComponentContainer()`: no record, counter at 0. -/
def empty : ComponentContainer F :=
  { components := [], lastComponentId := 0, entityToComponent := [] }

/-- The loop of `refreshComponentsCache` over the records at positions `start, start+1, ...`. -/
def refreshLoop (m : List (Entity × Nat)) (start : Nat) : List (Component F) → List (Entity × Nat)
  | [] => m
  | component :: rest => refreshLoop (cacheAssign m component.entity start) (start + 1) rest

/-- Method `refreshComponentsCache()`: clear the cache, then point every record's entity at the record. -/
def refreshComponentsCache (c : ComponentContainer F) : ComponentContainer F :=
  { c with entityToComponent := refreshLoop [] 0 c.components }

/-- Method `getComponent(entity)`: the cached pointer, `none` when the cache has no entry. -/
def getComponent (c : ComponentContainer F) (entity : Entity) : Option Nat :=
  cacheFind c.entityToComponent entity

/-- Method `createComponent(entity, args...)`. -/
def createComponent (c : ComponentContainer F) (entity : Entity) (args : F) :
    ComponentContainer F :=
  if (c.getComponent entity).isSome then c
  else
    refreshComponentsCache
      { c with
        components := c.components ++ [{ componentId := c.lastComponentId, entity := entity, fields := args }]
        lastComponentId := (c.lastComponentId + 1) % UINT_SIZE }

/-- Method `removeComponent(TComponent* component)`: only `component->componentId` is read. -/
def removeComponentPtr (c : ComponentContainer F) (component : Component F) :
    ComponentContainer F :=
  match find_if (fun r => r.componentId == component.componentId) c.components with
  | some i => refreshComponentsCache { c with components := c.components.eraseIdx i }
  | none => c

/-- Method `removeComponent(Entity entity)`. -/
def removeComponent (c : ComponentContainer F) (entity : Entity) : ComponentContainer F :=
  match find_if (fun r => r.entity == entity) c.components with
  | some i => refreshComponentsCache { c with components := c.components.eraseIdx i }
  | none => c

/-- Method `getComponents()`. -/
def getComponents (c : ComponentContainer F) : List (Component F) :=
  c.components

/-- The record read through the pointer that `getComponent(entity)` returns. -/
def getComponentRecord (c : ComponentContainer F) (entity : Entity) : Option (Component F) :=
  (c.getComponent entity).bind fun i => c.components[i]?

end ComponentContainer

/-- One call on a component container. -/
inductive StoreOp (F : Type) where
  | createComponent (entity : Entity) (args : F)
  | removeComponent (entity : Entity)
  | removeComponentPtr (component : Component F)

/-- Effect of one call. -/
def StoreOp.apply {F : Type} (c : ComponentContainer F) : StoreOp F → ComponentContainer F
  | .createComponent entity args => c.createComponent entity args
  | .removeComponent entity => c.removeComponent entity
  | .removeComponentPtr component => c.removeComponentPtr component

/-- The container after a sequence of calls on a freshly constructed one. -/
def runStore {F : Type} (ops : List (StoreOp F)) : ComponentContainer F :=
  ops.foldl StoreOp.apply ComponentContainer.empty

/-- The component id that one call gives to the record it appends: `createComponent` for an
entity without record uses the current counter value, every other call appends nothing. -/
def StoreOp.assigns {F : Type} (c : ComponentContainer F) : StoreOp F → List Nat
  | .createComponent entity _ => if (c.getComponent entity).isSome then [] else [c.lastComponentId]
  | _ => []

/-- The component ids that the calls of a sequence started from `c` give to the records they
append, in call order, whether or not the records are removed later. -/
def assignedFrom {F : Type} (c : ComponentContainer F) : List (StoreOp F) → List Nat
  | [] => []
  | op :: ops => op.assigns c ++ assignedFrom (op.apply c) ops

/-- The component ids that a sequence of calls on a freshly constructed container assigns. -/
def assigned {F : Type} (ops : List (StoreOp F)) : List Nat :=
  assignedFrom ComponentContainer.empty ops

/-- A call sequence that uses `k + 2` component ids while the container never holds more than
two records: attach to entity 1, then `k` times attach to entity 2 and detach it again, then
attach to entity 2 once more. -/
def wrapAround {F : Type} (k : Nat) (args : F) : List (StoreOp F) :=
  [StoreOp.createComponent 1 args] ++
    (List.replicate k [StoreOp.createComponent 2 args, StoreOp.removeComponent 2]).flatten ++
    [StoreOp.createComponent 2 args]

/-- What a `TComponent*` handed out by the manager points at: the record at a position of the
container's own `components` vector, or an element of a vector that was local to the call and
is destroyed when the call returns. -/
inductive Pointer where
  | stored (position : Nat)
  | expired (position : Nat)
  deriving DecidableEq, Repr

/-- The record read through a pointer.  Nothing can be read through a pointer whose target is
destroyed. -/
def Pointer.read {F : Type} (c : ComponentContainer F) : Pointer → Option (Component F)
  | .stored position => c.components[position]?
  | .expired _ => none

/-! ## `std::unordered_map` with an observable iteration order -/

/-- Lookup `m.find(k)`: the mapped value, `none` for `end()`. -/
def umapFind {K : Type} [DecidableEq K] {V : K → Type} (m : List (Sigma V)) (k : K) :
    Option (V k) :=
  m.dlookup k

/-- Insertion of a key the map does not hold yet.  The standard library decides where the new
entry lands in the iteration order: at position `slot k keys`, at the end when that is beyond
the last entry. -/
def umapInsertNew {K : Type} {V : K → Type} (slot : K → List K → Nat) (m : List (Sigma V))
    (k : K) (v : V k) : List (Sigma V) :=
  m.take (slot k m.keys) ++ ⟨k, v⟩ :: m.drop (slot k m.keys)

/-- Overwrite, in place, the value mapped to a key the map holds. -/
def umapReplace {K : Type} [DecidableEq K] {V : K → Type} (m : List (Sigma V)) (k : K)
    (v : V k) : List (Sigma V) :=
  match m with
  | [] => []
  | s :: rest => if s.1 = k then ⟨k, v⟩ :: rest else s :: umapReplace rest k v

/-- Assignment `m[k] = v`: overwrite the mapped value in place, or insert the key. -/
def umapAssign {K : Type} [DecidableEq K] {V : K → Type} (slot : K → List K → Nat)
    (m : List (Sigma V)) (k : K) (v : V k) : List (Sigma V) :=
  if k ∈ m.keys then umapReplace m k v else umapInsertNew slot m k v

/-- Head insertion: a new key becomes the first entry of the iteration order.  This is what a
library does that links the node of a key whose bucket is empty at the head of its element
list. -/
def slotFront {K : Type} : K → List K → Nat :=
  fun _ _ => 0

/-- Tail insertion: a new key becomes the last entry of the iteration order. -/
def slotBack {K : Type} : K → List K → Nat :=
  fun _ keys => keys.length

/-! ## The entity manager -/

/-- The `class EntityManager`.  `C` are the `type_index` values of component types, `F k` the fields
of component type `k`, `T` the `type_index` values of system types and `S` the system objects. -/
structure EntityManager (C : Type) (F : C → Type) (T : Type) (S : Type) where
  lastEntityId : Nat
  entities : List Entity
  entitiesToRemove : List Entity
  componentContainers : List (Σ k : C, ComponentContainer (F k))
  systems : List (Σ _ : T, S)

namespace EntityManager

variable {C : Type} [DecidableEq C] {F : C → Type} {T : Type} [DecidableEq T] {S : Type}

/-- Constructor `EntityManager()`: the counter starts at 1, everything else is empty. -/
def init : EntityManager C F T S :=
  { lastEntityId := 1, entities := [], entitiesToRemove := [], componentContainers := [],
    systems := [] }

/-- Method `createEntity()`: the new state and the identifier returned. -/
def createEntity (em : EntityManager C F T S) : EntityManager C F T S × Entity :=
  ({ em with
      entities := em.entities ++ [em.lastEntityId]
      lastEntityId := (em.lastEntityId + 1) % UINT_SIZE },
    em.lastEntityId)

/-- Method `removeEntity(entity)`. -/
def removeEntity (em : EntityManager C F T S) (entity : Entity) : EntityManager C F T S :=
  { em with entitiesToRemove := em.entitiesToRemove ++ [entity] }

/-- Method `getEntities()`. -/
def getEntities (em : EntityManager C F T S) : List Entity :=
  em.entities

/-- Method `getComponentsContainer<TComponent>()`: the container of type `k`, created on first use. -/
def getComponentsContainer (slot : C → List C → Nat) (em : EntityManager C F T S) (k : C) :
    EntityManager C F T S × ComponentContainer (F k) :=
  match umapFind em.componentContainers k with
  | some container => (em, container)
  | none =>
    ({ em with
        componentContainers :=
          umapInsertNew slot em.componentContainers k ComponentContainer.empty },
      ComponentContainer.empty)

/-- A call through the `ComponentContainer<TComponent>*` that changes the container in place. -/
def storeContainer (em : EntityManager C F T S) (k : C) (container : ComponentContainer (F k)) :
    EntityManager C F T S :=
  { em with componentContainers := umapReplace em.componentContainers k container }

/-- Method `createComponent<TComponent>(entity, args...)`. -/
def createComponent (slot : C → List C → Nat) (em : EntityManager C F T S) (k : C)
    (entity : Entity) (args : F k) : EntityManager C F T S :=
  let r := getComponentsContainer slot em k
  storeContainer r.1 k (r.2.createComponent entity args)

/-- Method `getComponent<TComponent>(entity)`: the state (the container may have been created) and
the pointer returned. -/
def getComponent (slot : C → List C → Nat) (em : EntityManager C F T S) (k : C)
    (entity : Entity) : EntityManager C F T S × Option Nat :=
  let r := getComponentsContainer slot em k
  (r.1, r.2.getComponent entity)

/-- The record read through the pointer that `getComponent<TComponent>(entity)` returns. -/
def getComponentRecord (slot : C → List C → Nat) (em : EntityManager C F T S) (k : C)
    (entity : Entity) : Option (Component (F k)) :=
  (getComponentsContainer slot em k).2.getComponentRecord entity

/-- Method `removeComponent<TComponent>(TComponent* component)`. -/
def removeComponentPtr (slot : C → List C → Nat) (em : EntityManager C F T S) (k : C)
    (component : Component (F k)) : EntityManager C F T S :=
  let r := getComponentsContainer slot em k
  storeContainer r.1 k (r.2.removeComponentPtr component)

/-- Method `removeComponent<TComponent>(Entity entity)`. -/
def removeComponent (slot : C → List C → Nat) (em : EntityManager C F T S) (k : C)
    (entity : Entity) : EntityManager C F T S :=
  let r := getComponentsContainer slot em k
  storeContainer r.1 k (r.2.removeComponent entity)

/-- Method `getComponent<TComponent>()` without argument.  The source declares
`std::vector<TComponent> components = container->getComponents();`, a copy of the record
vector that is local to the call, and returns `&components.front()` when the copy has elements:
the address of element 0 of a vector that is destroyed on return. -/
def getComponentFront (slot : C → List C → Nat) (em : EntityManager C F T S) (k : C) :
    EntityManager C F T S × Option Pointer :=
  let r := getComponentsContainer slot em k
  let components := r.2.getComponents
  if components.length ≠ 0 then (r.1, some (Pointer.expired 0)) else (r.1, none)

/-- Method `getComponents<TComponent>()`: the state and the record vector. -/
def getComponents (slot : C → List C → Nat) (em : EntityManager C F T S) (k : C) :
    EntityManager C F T S × List (Component (F k)) :=
  let r := getComponentsContainer slot em k
  (r.1, r.2.getComponents)

/-- Method `createSystem<TSystem>(args...)`: `system` is the object built from `args`; the result is
the state and the pointer read back from the map. -/
def createSystem (slot : T → List T → Nat) (em : EntityManager C F T S) (t : T) (system : S) :
    EntityManager C F T S × Option S :=
  let em1 := { em with systems := umapAssign slot em.systems t system }
  (em1, umapFind em1.systems t)

/-- One round of the outer loop of `removePendingEntites`: every container drops the record
of `entity`, then the first occurrence of `entity` leaves the entity vector. -/
def removePendingEntity (em : EntityManager C F T S) (entity : Entity) : EntityManager C F T S :=
  { em with
    componentContainers :=
      em.componentContainers.map fun container => ⟨container.1, container.2.removeComponent entity⟩
    entities :=
      match find_if (fun x => x == entity) em.entities with
      | some i => em.entities.eraseIdx i
      | none => em.entities }

/-- Method `removePendingEntites()`. -/
def removePendingEntites (em : EntityManager C F T S) : EntityManager C F T S :=
  { em.entitiesToRemove.foldl removePendingEntity em with entitiesToRemove := [] }

/-- Method `update(delta)`.  A system's `update` is code of the host program: `call system delta` is
its effect on the manager and on the rest of the program state `X`.  The loop runs over the
systems held when it starts. -/
def update {D X : Type} (call : S → D → EntityManager C F T S × X → EntityManager C F T S × X)
    (delta : D) (w : EntityManager C F T S × X) : EntityManager C F T S × X :=
  let em1 := removePendingEntites w.1
  em1.systems.foldl (fun w system => call system.2 delta w) (em1, w.2)

/-- Method `getSystem<TSystem>()`, read with `systems.end()` in its first test.  The source has
`system.end()` there, and no object named `system` is in scope. -/
def getSystem (em : EntityManager C F T S) (t : T) : Option S :=
  umapFind em.systems t

/-- The calls `system->update(delta)` that one `update(delta)` makes, in the order it makes
them: every system appends itself and the argument it got to a log kept in the program state. -/
def updateCalls {D : Type} (em : EntityManager C F T S) (delta : D) : List (S × D) :=
  (update (fun system d w => (w.1, w.2 ++ [(system, d)])) delta (em, [])).2

end EntityManager

/-- One call on the entity manager, made by the host program or by a system during its
`update`.  The calls that leave the manager as it is (`getEntities`, `getSystem`) are left out;
`getComponent<TComponent>()` without argument changes the manager as `getComponents` does. -/
inductive Op (C : Type) (F : C → Type) (T : Type) (S : Type) where
  | createEntity
  | removeEntity (entity : Entity)
  | createComponent (k : C) (entity : Entity) (args : F k)
  | getComponent (k : C) (entity : Entity)
  | getComponents (k : C)
  | removeComponentPtr (k : C) (component : Component (F k))
  | removeComponent (k : C) (entity : Entity)
  | createSystem (t : T) (system : S)
  | update

section Run

variable {C : Type} [DecidableEq C] {F : C → Type} {T : Type} [DecidableEq T] {S : Type}

/-- Effect of one call on the manager, with the identifier returned when the call is
`createEntity`.  For `update` this is the flush; what the systems then do is made of further
calls of the sequence. -/
def Op.apply (slotC : C → List C → Nat) (slotT : T → List T → Nat) (em : EntityManager C F T S) :
    Op C F T S → EntityManager C F T S × Option Entity
  | .createEntity => ((em.createEntity).1, some (em.createEntity).2)
  | .removeEntity entity => (em.removeEntity entity, none)
  | .createComponent k entity args => (em.createComponent slotC k entity args, none)
  | .getComponent k entity => ((em.getComponent slotC k entity).1, none)
  | .getComponents k => ((em.getComponents slotC k).1, none)
  | .removeComponentPtr k component => (em.removeComponentPtr slotC k component, none)
  | .removeComponent k entity => (em.removeComponent slotC k entity, none)
  | .createSystem t system => ((em.createSystem slotT t system).1, none)
  | .update => (em.removePendingEntites, none)

/-- The manager after a sequence of calls, started from `em`. -/
def runFrom (slotC : C → List C → Nat) (slotT : T → List T → Nat) (em : EntityManager C F T S)
    (ops : List (Op C F T S)) : EntityManager C F T S :=
  ops.foldl (fun s op => (op.apply slotC slotT s).1) em

/-- The identifiers returned by the `createEntity` calls of a sequence started from `em`, in
call order. -/
def createdFrom (slotC : C → List C → Nat) (slotT : T → List T → Nat) (em : EntityManager C F T S) :
    List (Op C F T S) → List Entity
  | [] => []
  | op :: ops =>
    ((op.apply slotC slotT em).2).toList ++ createdFrom slotC slotT (op.apply slotC slotT em).1 ops

/-- The manager after a sequence of calls on a freshly constructed one. -/
def run (slotC : C → List C → Nat) (slotT : T → List T → Nat) (ops : List (Op C F T S)) :
    EntityManager C F T S :=
  runFrom slotC slotT EntityManager.init ops

/-- The identifiers returned by the `createEntity` calls of a sequence on a fresh manager. -/
def created (slotC : C → List C → Nat) (slotT : T → List T → Nat) (ops : List (Op C F T S)) :
    List Entity :=
  createdFrom slotC slotT (EntityManager.init : EntityManager C F T S) ops

/-- Whether a call is `createEntity`. -/
def Op.isCreateEntity : Op C F T S → Bool
  | .createEntity => true
  | _ => false

/-- The system a call constructs, with its type, when the call is `createSystem`. -/
def Op.system? : Op C F T S → Option (Σ _ : T, S)
  | .createSystem t system => some ⟨t, system⟩
  | _ => none

/-- The systems that the `createSystem` calls of a sequence construct, with their types, in call
order. -/
def createdSystems (ops : List (Op C F T S)) : List (Σ _ : T, S) :=
  ops.filterMap Op.system?

/-- Number of `createEntity` calls in a sequence. -/
def createCount (ops : List (Op C F T S)) : Nat :=
  ops.countP Op.isCreateEntity

end Run

/-! ## Invariants -/

/-- A container is consistent when its cache is the one `refreshComponentsCache` builds from
the current records and no two records belong to the same entity. -/
def ComponentContainer.Consistent {F : Type} (c : ComponentContainer F) : Prop :=
  c.entityToComponent = ComponentContainer.refreshLoop [] 0 c.components ∧
    (c.components.map (·.entity)).Nodup

/-- The component containers of a manager are well formed when no `type_index` is held twice
and every container is consistent. -/
def EntityManager.StoresOk {C : Type} {F : C → Type} {T S : Type} (em : EntityManager C F T S) :
    Prop :=
  em.componentContainers.NodupKeys ∧ ∀ s ∈ em.componentContainers, s.2.Consistent

/-! ## Lemmas on the vector and cache primitives -/

section Primitives

variable {α : Type}

theorem find_if_erase_eq_eraseP (p : α → Bool) (l : List α) :
    (match find_if p l with
      | some i => l.eraseIdx i
      | none => l) = l.eraseP p := by
  induction l with
  | nil => rfl
  | cons x xs ih =>
    by_cases hx : p x = true
    · simp [find_if, hx, List.eraseP_cons]
    · simp only [find_if, hx, List.eraseP_cons, Bool.false_eq_true, if_false]
      rw [← ih]
      cases h : find_if p xs <;> simp

theorem find_if_eq_none_iff (p : α → Bool) (l : List α) :
    find_if p l = none ↔ ∀ x ∈ l, p x = false := by
  induction l with
  | nil => simp [find_if]
  | cons x xs ih =>
    by_cases hx : p x = true
    · simp [find_if, hx]
    · simp [find_if, hx, ih]

theorem cacheFind_cacheAssign (m : List (Entity × Nat)) (e : Entity) (p : Nat) (x : Entity) :
    cacheFind (cacheAssign m e p) x = if e = x then some p else cacheFind m x := by
  induction m with
  | nil => simp [cacheAssign, cacheFind]
  | cons a rest ih =>
    obtain ⟨e', p'⟩ := a
    by_cases h : e' = e
    · subst h
      by_cases hx : e' = x <;> simp [cacheAssign, cacheFind, hx]
    · by_cases hx : e' = x
      · subst hx
        have : ¬ e = e' := fun h' => h h'.symm
        simp [cacheAssign, cacheFind, h, this]
      · simp [cacheAssign, cacheFind, h, hx, ih]

end Primitives

namespace ComponentContainer

variable {F : Type}

theorem refreshLoop_snoc (m : List (Entity × Nat)) (start : Nat) (l : List (Component F))
    (r : Component F) :
    refreshLoop m start (l ++ [r]) = cacheAssign (refreshLoop m start l) r.entity (start + l.length) := by
  induction l generalizing m start with
  | nil => simp [refreshLoop]
  | cons a rest ih =>
    show refreshLoop (cacheAssign m a.entity start) (start + 1) (rest ++ [r]) = _
    rw [ih]
    simp only [refreshLoop, List.length_cons]
    congr 1
    omega

theorem cacheFind_refresh_snoc (l : List (Component F)) (r : Component F) (x : Entity) :
    cacheFind (refreshLoop [] 0 (l ++ [r])) x =
      if r.entity = x then some l.length else cacheFind (refreshLoop [] 0 l) x := by
  rw [refreshLoop_snoc, cacheFind_cacheAssign]
  simp

theorem cacheFind_refresh_eq_none (l : List (Component F)) (x : Entity) :
    cacheFind (refreshLoop [] 0 l) x = none ↔ ∀ r ∈ l, r.entity ≠ x := by
  induction l using List.reverseRecOn with
  | nil => simp [refreshLoop, cacheFind]
  | append_singleton l r ih =>
    rw [cacheFind_refresh_snoc]
    by_cases h : r.entity = x
    · simp only [h, if_true]
      constructor
      · intro h'
        cases h'
      · intro hl
        exact absurd h (hl r (by simp))
    · simp only [h, if_false, ih, List.mem_append, List.mem_singleton]
      constructor
      · rintro hl r' (h' | rfl)
        · exact hl r' h'
        · exact h
      · intro hl r' h'
        exact hl r' (Or.inl h')

theorem cacheFind_refresh_some (l : List (Component F)) (x : Entity) (i : Nat)
    (h : cacheFind (refreshLoop [] 0 l) x = some i) :
    ∃ r, l[i]? = some r ∧ r.entity = x := by
  induction l using List.reverseRecOn with
  | nil => simp [refreshLoop, cacheFind] at h
  | append_singleton l r ih =>
    rw [cacheFind_refresh_snoc] at h
    by_cases hx : r.entity = x
    · simp only [hx, if_true, Option.some.injEq] at h
      subst h
      exact ⟨r, by simp, hx⟩
    · simp only [hx, if_false] at h
      obtain ⟨r', hr', hx'⟩ := ih h
      have hlt : i < l.length := (List.getElem?_eq_some_iff.mp hr').1
      exact ⟨r', by rw [List.getElem?_append_left hlt]; exact hr', hx'⟩

theorem cacheFind_refresh_of_nodup (l : List (Component F))
    (hnd : (l.map (·.entity)).Nodup) (i : Nat) (r : Component F) (h : l[i]? = some r) :
    cacheFind (refreshLoop [] 0 l) r.entity = some i := by
  induction l using List.reverseRecOn with
  | nil => simp at h
  | append_singleton l r0 ih =>
    rw [cacheFind_refresh_snoc]
    rw [List.map_append, List.nodup_append] at hnd
    obtain ⟨hl, -, hdis⟩ := hnd
    by_cases hlt : i < l.length
    · rw [List.getElem?_append_left hlt] at h
      have hmem : r ∈ l := List.getElem?_mem h
      have hne : ¬ r0.entity = r.entity := by
        intro heq
        exact hdis (List.mem_map_of_mem (·.entity) hmem) (by simp [heq])
      simp only [hne, if_false]
      exact ih hl h
    · have hi : i = l.length := by
        have := (List.getElem?_eq_some_iff.mp h).1
        simp at this
        omega
      subst hi
      simp at h
      subst h
      simp

end ComponentContainer

namespace ComponentContainer

variable {F : Type}

theorem consistent_empty : (empty : ComponentContainer F).Consistent := by
  simp [Consistent, empty, refreshLoop]

theorem components_removeComponent (c : ComponentContainer F) (e : Entity) :
    (c.removeComponent e).components = c.components.eraseP (fun r => r.entity == e) := by
  rw [← find_if_erase_eq_eraseP]
  unfold removeComponent
  cases find_if (fun r => r.entity == e) c.components <;> rfl

theorem components_removeComponentPtr (c : ComponentContainer F) (r0 : Component F) :
    (c.removeComponentPtr r0).components =
      c.components.eraseP (fun r => r.componentId == r0.componentId) := by
  rw [← find_if_erase_eq_eraseP]
  unfold removeComponentPtr
  cases find_if (fun r => r.componentId == r0.componentId) c.components <;> rfl

theorem lastComponentId_removeComponent (c : ComponentContainer F) (e : Entity) :
    (c.removeComponent e).lastComponentId = c.lastComponentId := by
  unfold removeComponent
  cases find_if (fun r => r.entity == e) c.components <;> rfl

theorem lastComponentId_removeComponentPtr (c : ComponentContainer F) (r0 : Component F) :
    (c.removeComponentPtr r0).lastComponentId = c.lastComponentId := by
  unfold removeComponentPtr
  cases find_if (fun r => r.componentId == r0.componentId) c.components <;> rfl

theorem Consistent.removeComponent {c : ComponentContainer F} (h : c.Consistent) (e : Entity) :
    (c.removeComponent e).Consistent := by
  unfold ComponentContainer.removeComponent
  cases hf : find_if (fun r => r.entity == e) c.components with
  | none => exact h
  | some i =>
    refine ⟨rfl, ?_⟩
    exact h.2.sublist ((List.eraseIdx_sublist _ _).map _)

theorem Consistent.removeComponentPtr {c : ComponentContainer F} (h : c.Consistent)
    (r0 : Component F) : (c.removeComponentPtr r0).Consistent := by
  unfold ComponentContainer.removeComponentPtr
  cases hf : find_if (fun r => r.componentId == r0.componentId) c.components with
  | none => exact h
  | some i =>
    refine ⟨rfl, ?_⟩
    exact h.2.sublist ((List.eraseIdx_sublist _ _).map _)

theorem Consistent.getComponent_eq_none_iff {c : ComponentContainer F} (h : c.Consistent)
    (e : Entity) : c.getComponent e = none ↔ ∀ r ∈ c.components, r.entity ≠ e := by
  unfold getComponent
  rw [h.1]
  exact cacheFind_refresh_eq_none _ _

theorem Consistent.getComponent_some {c : ComponentContainer F} (h : c.Consistent)
    {e : Entity} {i : Nat} (hi : c.getComponent e = some i) :
    ∃ r, c.components[i]? = some r ∧ r.entity = e := by
  unfold getComponent at hi
  rw [h.1] at hi
  exact cacheFind_refresh_some _ _ _ hi

theorem Consistent.getComponent_of_getElem? {c : ComponentContainer F} (h : c.Consistent)
    {i : Nat} {r : Component F} (hi : c.components[i]? = some r) :
    c.getComponent r.entity = some i := by
  unfold getComponent
  rw [h.1]
  exact cacheFind_refresh_of_nodup _ h.2 _ _ hi

theorem Consistent.createComponent {c : ComponentContainer F} (h : c.Consistent) (e : Entity)
    (args : F) : (c.createComponent e args).Consistent := by
  unfold ComponentContainer.createComponent
  by_cases hs : (c.getComponent e).isSome = true
  · simp only [hs, if_true]
    exact h
  · simp only [hs]
    refine ⟨rfl, ?_⟩
    have hnone : c.getComponent e = none := by
      cases hg : c.getComponent e with
      | none => rfl
      | some i => simp [hg] at hs
    have hno := (h.getComponent_eq_none_iff e).mp hnone
    show (List.map (fun r : Component F => r.entity) (c.components ++ [_])).Nodup
    rw [List.map_append, List.nodup_append]
    refine ⟨h.2, by simp, ?_⟩
    intro x hx hx'
    simp only [List.map_cons, List.map_nil, List.mem_singleton] at hx'
    subst hx'
    obtain ⟨r, hr, hre⟩ := List.mem_map.mp hx
    exact hno r hr hre

theorem Consistent.getComponentRecord_eq_find? {c : ComponentContainer F} (h : c.Consistent)
    (e : Entity) : c.getComponentRecord e = c.components.find? (fun r => r.entity == e) := by
  unfold getComponentRecord
  cases hg : c.getComponent e with
  | none =>
    have hno := (h.getComponent_eq_none_iff e).mp hg
    symm
    simp only [Option.none_bind, List.find?_eq_none]
    intro r hr
    simpa using hno r hr
  | some i =>
    obtain ⟨r, hr, hre⟩ := h.getComponent_some hg
    simp only [Option.some_bind, hr]
    cases hf : c.components.find? (fun r => r.entity == e) with
    | none =>
      have := List.find?_eq_none.mp hf r (List.getElem?_mem hr)
      simp [hre] at this
    | some r' =>
      have hmem : r' ∈ c.components := List.mem_of_find?_eq_some hf
      have hp : r'.entity = e := by simpa using List.find?_some hf
      have := List.inj_on_of_nodup_map h.2 (List.getElem?_mem hr) hmem (by rw [hre, hp])
      rw [this]

theorem consistent_runStore (ops : List (StoreOp F)) : (runStore ops).Consistent := by
  unfold runStore
  suffices H : ∀ c : ComponentContainer F, c.Consistent → (ops.foldl StoreOp.apply c).Consistent from
    H _ consistent_empty
  induction ops with
  | nil => intro c hc; exact hc
  | cons op ops ih =>
    intro c hc
    apply ih
    cases op with
    | createComponent e a => exact hc.createComponent e a
    | removeComponent e => exact hc.removeComponent e
    | removeComponentPtr r => exact hc.removeComponentPtr r

end ComponentContainer

namespace ComponentContainer

variable {F : Type}

theorem createComponent_of_isSome {c : ComponentContainer F} {e : Entity}
    (h : (c.getComponent e).isSome = true) (args : F) : c.createComponent e args = c := by
  unfold createComponent
  simp [h]

theorem createComponent_of_none {c : ComponentContainer F} {e : Entity}
    (h : c.getComponent e = none) (args : F) :
    c.createComponent e args =
      { components := c.components ++ [{ componentId := c.lastComponentId, entity := e, fields := args }]
        lastComponentId := (c.lastComponentId + 1) % UINT_SIZE
        entityToComponent :=
          refreshLoop [] 0
            (c.components ++ [{ componentId := c.lastComponentId, entity := e, fields := args }]) } := by
  unfold createComponent
  simp [h, refreshComponentsCache]

theorem getComponent_createComponent_self (c : ComponentContainer F) (e : Entity) (args : F) :
    ((c.createComponent e args).getComponent e).isSome = true := by
  by_cases h : (c.getComponent e).isSome = true
  · rw [createComponent_of_isSome h]
    exact h
  · have hnone : c.getComponent e = none := by
      cases hg : c.getComponent e with
      | none => rfl
      | some i => simp [hg] at h
    rw [createComponent_of_none hnone]
    unfold getComponent
    simp [cacheFind_refresh_snoc]

theorem createComponent_twice (c : ComponentContainer F) (e : Entity) (a1 a2 : F) :
    (c.createComponent e a1).createComponent e a2 = c.createComponent e a1 :=
  createComponent_of_isSome (getComponent_createComponent_self c e a1) a2

theorem Consistent.countP_entity_le_one {c : ComponentContainer F} (h : c.Consistent)
    (e : Entity) : c.components.countP (fun r => r.entity == e) ≤ 1 := by
  have h1 : c.components.countP (fun r => r.entity == e) = (c.components.map (·.entity)).count e := by
    rw [List.count, List.countP_map]
    rfl
  rw [h1]
  exact List.nodup_iff_count_le_one.mp h.2 e

theorem Consistent.countP_entity_eq_one {c : ComponentContainer F} (h : c.Consistent)
    {e : Entity} (hs : (c.getComponent e).isSome = true) :
    c.components.countP (fun r => r.entity == e) = 1 := by
  apply Nat.le_antisymm (h.countP_entity_le_one e)
  obtain ⟨i, hi⟩ := Option.isSome_iff_exists.mp hs
  obtain ⟨r, hr, hre⟩ := h.getComponent_some hi
  exact List.countP_pos_iff.mpr ⟨r, List.getElem?_mem hr, by simp [hre]⟩

theorem Consistent.getComponent_createComponent_ne {c : ComponentContainer F} (h : c.Consistent)
    (e : Entity) (args : F) {x : Entity} (hx : x ≠ e) :
    (c.createComponent e args).getComponent x = c.getComponent x := by
  by_cases hs : (c.getComponent e).isSome = true
  · rw [createComponent_of_isSome hs]
  · have hnone : c.getComponent e = none := by
      cases hg : c.getComponent e with
      | none => rfl
      | some i => simp [hg] at hs
    rw [createComponent_of_none hnone]
    unfold getComponent
    simp only [cacheFind_refresh_snoc]
    rw [if_neg (fun h' => hx h'.symm), h.1]

theorem Consistent.getComponentRecord_createComponent_ne {c : ComponentContainer F}
    (h : c.Consistent) (e : Entity) (args : F) {x : Entity} (hx : x ≠ e) :
    (c.createComponent e args).getComponentRecord x = c.getComponentRecord x := by
  rw [(h.createComponent e args).getComponentRecord_eq_find?, h.getComponentRecord_eq_find?]
  by_cases hs : (c.getComponent e).isSome = true
  · rw [createComponent_of_isSome hs]
  · have hnone : c.getComponent e = none := by
      cases hg : c.getComponent e with
      | none => rfl
      | some i => simp [hg] at hs
    rw [createComponent_of_none hnone]
    simp only [List.find?_append, List.find?_cons, List.find?_nil]
    have : (e == x) = false := by simpa using fun h' : e = x => hx h'.symm
    simp [this]

theorem Consistent.getComponentRecord_createComponent_new {c : ComponentContainer F}
    (h : c.Consistent) {e : Entity} (hno : ∀ r ∈ c.components, r.entity ≠ e) (args : F) :
    (c.createComponent e args).getComponent e = some c.components.length ∧
      (c.createComponent e args).getComponentRecord e =
        some { componentId := c.lastComponentId, entity := e, fields := args } := by
  have hnone := (h.getComponent_eq_none_iff e).mpr hno
  rw [createComponent_of_none hnone]
  have hp : getComponent
      { components := c.components ++ [{ componentId := c.lastComponentId, entity := e, fields := args }]
        lastComponentId := (c.lastComponentId + 1) % UINT_SIZE
        entityToComponent :=
          refreshLoop [] 0
            (c.components ++ [{ componentId := c.lastComponentId, entity := e, fields := args }]) } e
        = some c.components.length := by
    unfold getComponent
    simp [cacheFind_refresh_snoc]
  refine ⟨hp, ?_⟩
  unfold getComponentRecord
  rw [hp]
  simp

end ComponentContainer

section StoreClaims

variable {F : Type}

/-- C3 (as amended): attaching to `e` twice in succession gives the same container (records,
cache and id counter) as the first attach alone, with exactly one record for `e`.  When `e`
had no record before, that record is the one built from the first argument list; when `e`
already had a record, that record is kept and both argument lists are discarded. -/
theorem createComponent_twice_same (ops : List (StoreOp F)) (e : Entity) (a1 a2 : F) :
    ((runStore ops).createComponent e a1).createComponent e a2 = (runStore ops).createComponent e a1 ∧
    (((runStore ops).createComponent e a1).createComponent e a2).getComponents.countP
      (fun r => r.entity == e) = 1 ∧
    ((∀ r ∈ (runStore ops).getComponents, r.entity ≠ e) →
      (((runStore ops).createComponent e a1).createComponent e a2).getComponentRecord e =
        some { componentId := (runStore ops).lastComponentId, entity := e, fields := a1 }) ∧
    (∀ r, (runStore ops).getComponentRecord e = some r →
      (((runStore ops).createComponent e a1).createComponent e a2).getComponentRecord e = some r ∧
      ((runStore ops).createComponent e a1).createComponent e a2 = runStore ops) := by
  have hc := ComponentContainer.consistent_runStore ops
  rw [ComponentContainer.createComponent_twice]
  refine ⟨rfl, ?_, ?_, ?_⟩
  · exact (hc.createComponent e a1).countP_entity_eq_one
      (ComponentContainer.getComponent_createComponent_self _ e a1)
  · intro hno
    exact (hc.getComponentRecord_createComponent_new hno a1).2
  · intro r hr
    have hs : ((runStore ops).getComponent e).isSome = true := by
      unfold ComponentContainer.getComponentRecord at hr
      cases hg : (runStore ops).getComponent e with
      | none => simp [hg] at hr
      | some i => rfl
    rw [ComponentContainer.createComponent_of_isSome hs]
    exact ⟨hr, rfl⟩

/-- C3, as stated, fails when `e` already has a record: after `createComponent(1, 10)` the calls
`createComponent(1, 20)` and `createComponent(1, 30)` leave the record with field `10`, not the
one built from the first of the two argument lists. -/
theorem createComponent_twice_keeps_old_record :
    (((runStore [StoreOp.createComponent 1 (10 : Nat)]).createComponent 1 20).createComponent 1
        30).getComponentRecord 1 = some { componentId := 0, entity := 1, fields := 10 } ∧
    ¬ ∃ r, (((runStore [StoreOp.createComponent 1 (10 : Nat)]).createComponent 1 20).createComponent
        1 30).getComponentRecord 1 = some r ∧ r.fields = 20 := by
  constructor
  · decide
  · rintro ⟨r, hr, hf⟩
    have h : (((runStore [StoreOp.createComponent 1 (10 : Nat)]).createComponent 1 20).createComponent
        1 30).getComponentRecord 1 = some { componentId := 0, entity := 1, fields := 10 } := by
      decide
    rw [h] at hr
    cases hr
    exact absurd hf (by decide)

/-- C4: in every container state reached from an empty container by `createComponent`,
`removeComponent(entity)` and `removeComponent(record)` calls, for the record `r` at any
position `i` of `getComponents()`, `getComponent(r.entity)` points at position `i` and reads
back `r`, and every record whose entity is `r.entity` sits at that same position. -/
theorem one_record_per_entity (ops : List (StoreOp F)) (i : Nat) (r : Component F)
    (h : (runStore ops).getComponents[i]? = some r) :
    (runStore ops).getComponent r.entity = some i ∧
    (runStore ops).getComponentRecord r.entity = some r ∧
    ∀ j r', (runStore ops).getComponents[j]? = some r' → r'.entity = r.entity → j = i := by
  have hc := ComponentContainer.consistent_runStore ops
  have hi := hc.getComponent_of_getElem? h
  refine ⟨hi, ?_, ?_⟩
  · unfold ComponentContainer.getComponentRecord
    rw [hi]
    exact h
  · intro j r' hj he
    have hj' := hc.getComponent_of_getElem? hj
    rw [he, hi] at hj'
    exact (Option.some.inj hj').symm

/-- Instance of C4: after attaching to 1 and 2, detaching 1 and attaching to 1 again, the record
of entity 1 sits at position 1 and `getComponent(1)` points there. -/
theorem one_record_per_entity_witness :
    (runStore [StoreOp.createComponent 1 (5 : Nat), .createComponent 2 6, .removeComponent 1,
        .createComponent 1 7]).getComponents[1]? = some { componentId := 2, entity := 1, fields := 7 } ∧
    (runStore [StoreOp.createComponent 1 (5 : Nat), .createComponent 2 6, .removeComponent 1,
        .createComponent 1 7]).getComponent 1 = some 1 :=
  ⟨by decide,
    (one_record_per_entity [StoreOp.createComponent 1 (5 : Nat), .createComponent 2 6,
      .removeComponent 1, .createComponent 1 7] 1 { componentId := 2, entity := 1, fields := 7 }
      (by decide)).1⟩

/-- C5: after any sequence of `createComponent`, `removeComponent(entity)` and
`removeComponent(record)` calls, `getComponent(e)` is absent exactly when no record of the
current sequence has entity `e`; otherwise the pointer it returns is a position of the current
sequence, and the record there has entity `e`. -/
theorem index_never_stale (ops : List (StoreOp F)) (e : Entity) :
    ((runStore ops).getComponent e = none ↔ ∀ r ∈ (runStore ops).getComponents, r.entity ≠ e) ∧
    ∀ i, (runStore ops).getComponent e = some i →
      ∃ r, (runStore ops).getComponents[i]? = some r ∧ r ∈ (runStore ops).getComponents ∧
        r.entity = e ∧ (runStore ops).getComponentRecord e = some r := by
  have hc := ComponentContainer.consistent_runStore ops
  refine ⟨hc.getComponent_eq_none_iff e, ?_⟩
  intro i hi
  obtain ⟨r, hr, hre⟩ := hc.getComponent_some hi
  refine ⟨r, hr, List.getElem?_mem hr, hre, ?_⟩
  unfold ComponentContainer.getComponentRecord
  rw [hi]
  exact hr

/-- C10: in a reachable container state where `e` has no record, `createComponent(e, args)`
appends one record at the end of `getComponents()`, with entity `e` and fields `args`;
afterwards `getComponent(e)` points at that record, and for every other entity `x` the pointer
and the record read through it are what they were. -/
theorem createComponent_appends (ops : List (StoreOp F)) (e : Entity) (args : F)
    (h : ∀ r ∈ (runStore ops).getComponents, r.entity ≠ e) :
    ((runStore ops).createComponent e args).getComponents =
      (runStore ops).getComponents ++
        [{ componentId := (runStore ops).lastComponentId, entity := e, fields := args }] ∧
    ((runStore ops).createComponent e args).getComponent e =
      some (runStore ops).getComponents.length ∧
    ((runStore ops).createComponent e args).getComponentRecord e =
      some { componentId := (runStore ops).lastComponentId, entity := e, fields := args } ∧
    ∀ x, x ≠ e →
      ((runStore ops).createComponent e args).getComponent x = (runStore ops).getComponent x ∧
      ((runStore ops).createComponent e args).getComponentRecord x =
        (runStore ops).getComponentRecord x := by
  have hc := ComponentContainer.consistent_runStore ops
  have hnone := (hc.getComponent_eq_none_iff e).mpr h
  have hnew := hc.getComponentRecord_createComponent_new h args
  refine ⟨?_, hnew.1, hnew.2, ?_⟩
  · rw [ComponentContainer.createComponent_of_none hnone]
    rfl
  · intro x hx
    exact ⟨hc.getComponent_createComponent_ne e args hx,
      hc.getComponentRecord_createComponent_ne e args hx⟩

/-- Instance of C10: attaching to entity 2 in a container that holds one record, of entity 1. -/
theorem createComponent_appends_witness :
    (∀ r ∈ (runStore [StoreOp.createComponent 1 (5 : Nat)]).getComponents, r.entity ≠ 2) ∧
    ((runStore [StoreOp.createComponent 1 (5 : Nat)]).createComponent 2 6).getComponents =
      [{ componentId := 0, entity := 1, fields := 5 }, { componentId := 1, entity := 2, fields := 6 }] :=
  ⟨by decide, (createComponent_appends [StoreOp.createComponent 1 (5 : Nat)] 2 6 (by decide)).1⟩

end StoreClaims

/-! ## Lemmas on the map primitives and on the flush -/

section UMapInsert

variable {K : Type} {V : K → Type}

theorem perm_umapInsertNew (slot : K → List K → Nat) (m : List (Sigma V)) (k : K) (v : V k) :
    (umapInsertNew slot m k v).Perm (⟨k, v⟩ :: m) := by
  unfold umapInsertNew
  have h := @List.perm_middle _ (⟨k, v⟩ : Sigma V) (m.take (slot k m.keys))
    (m.drop (slot k m.keys))
  rwa [List.take_append_drop] at h

theorem nodupKeys_umapInsertNew (slot : K → List K → Nat) {m : List (Sigma V)} {k : K}
    (h : m.NodupKeys) (hk : k ∉ m.keys) (v : V k) : (umapInsertNew slot m k v).NodupKeys :=
  (List.perm_nodupKeys (perm_umapInsertNew slot m k v)).mpr (List.nodupKeys_cons.mpr ⟨hk, h⟩)

theorem mem_umapInsertNew (slot : K → List K → Nat) (m : List (Sigma V)) (k : K) (v : V k)
    (s : Sigma V) : s ∈ umapInsertNew slot m k v ↔ s = ⟨k, v⟩ ∨ s ∈ m :=
  (perm_umapInsertNew slot m k v).mem_iff.trans List.mem_cons

end UMapInsert

section UMap

variable {K : Type} [DecidableEq K] {V : K → Type}

theorem keys_umapReplace (m : List (Sigma V)) (k : K) (v : V k) :
    (umapReplace m k v).keys = m.keys := by
  induction m with
  | nil => rfl
  | cons s rest ih =>
    by_cases h : s.1 = k
    · simp [umapReplace, h, List.keys]
    · simp only [umapReplace, h, if_false, List.keys_cons, ih]

theorem mem_umapReplace {m : List (Sigma V)} {k : K} {v : V k} {s : Sigma V}
    (h : s ∈ umapReplace m k v) : s = ⟨k, v⟩ ∨ s ∈ m := by
  induction m with
  | nil => simp [umapReplace] at h
  | cons a rest ih =>
    by_cases ha : a.1 = k
    · simp only [umapReplace, ha, if_true, List.mem_cons] at h
      rcases h with h | h
      · exact Or.inl h
      · exact Or.inr (List.mem_cons_of_mem _ h)
    · simp only [umapReplace, ha, if_false, List.mem_cons] at h
      rcases h with h | h
      · exact Or.inr (by rw [h]; exact List.mem_cons_self _ _)
      · rcases ih h with h' | h'
        · exact Or.inl h'
        · exact Or.inr (List.mem_cons_of_mem _ h')

theorem dlookup_umapReplace_self {m : List (Sigma V)} {k : K} (hk : k ∈ m.keys) (v : V k) :
    (umapReplace m k v).dlookup k = some v := by
  induction m with
  | nil => simp at hk
  | cons a rest ih =>
    by_cases ha : a.1 = k
    · simp only [umapReplace, ha, if_true, List.dlookup_cons_eq]
    · simp only [umapReplace, ha, if_false]
      rw [List.dlookup_cons_ne _ _ (fun h => ha h.symm)]
      apply ih
      simp only [List.keys_cons, List.mem_cons] at hk
      rcases hk with hk | hk
      · exact absurd hk.symm ha
      · exact hk

theorem dlookup_umapReplace_ne (m : List (Sigma V)) {k k' : K} (hk : k' ≠ k) (v : V k) :
    (umapReplace m k v).dlookup k' = m.dlookup k' := by
  induction m with
  | nil => rfl
  | cons a rest ih =>
    by_cases ha : a.1 = k
    · simp only [umapReplace, ha, if_true]
      rw [List.dlookup_cons_ne _ _ (show k' ≠ (⟨k, v⟩ : Sigma V).1 from hk),
        List.dlookup_cons_ne _ _ (show k' ≠ a.1 from ha ▸ hk)]
    · simp only [umapReplace, ha, if_false]
      by_cases hk' : k' = a.1
      · subst hk'
        obtain ⟨a1, a2⟩ := a
        simp only [List.dlookup_cons_eq]
      · rw [List.dlookup_cons_ne _ _ hk', List.dlookup_cons_ne _ _ hk', ih]

end UMap

section EraseLemmas

theorem eraseP_beq_eq_erase (l : List Entity) (e : Entity) :
    l.eraseP (fun x => x == e) = l.erase e :=
  (List.erase_eq_eraseP' e l).symm

theorem eraseP_entity_eq_filter {F : Type} (l : List (Component F)) (e : Entity)
    (h : (l.map (·.entity)).Nodup) :
    l.eraseP (fun r => r.entity == e) = l.filter (fun r => r.entity != e) := by
  induction l with
  | nil => rfl
  | cons x xs ih =>
    rw [List.map_cons, List.nodup_cons] at h
    by_cases hx : x.entity = e
    · have hx' : (x.entity == e) = true := by simpa using hx
      have hx'' : (x.entity != e) = false := by simpa using hx
      simp only [List.eraseP_cons, List.filter_cons, hx', hx'', if_true, Bool.false_eq_true,
        if_false, cond_true]
      symm
      rw [List.filter_eq_self]
      intro r hr
      have : r.entity ≠ e := by
        intro hre
        apply h.1
        rw [hx, ← hre]
        exact List.mem_map_of_mem _ hr
      simpa using this
    · have hx' : (x.entity == e) = false := by simpa using hx
      have hx'' : (x.entity != e) = true := by simpa using hx
      simp only [List.eraseP_cons, List.filter_cons, hx', hx'', if_true, Bool.false_eq_true,
        if_false, cond_false, ih h.2]

end EraseLemmas

namespace ComponentContainer

variable {F : Type}

theorem Consistent.foldl_removeComponent {c : ComponentContainer F} (h : c.Consistent)
    (pending : List Entity) :
    (pending.foldl ComponentContainer.removeComponent c).Consistent ∧
      (pending.foldl ComponentContainer.removeComponent c).components =
        c.components.filter (fun r => decide (r.entity ∉ pending)) := by
  induction pending generalizing c with
  | nil => exact ⟨h, by simp⟩
  | cons e ps ih =>
    have h1 := h.removeComponent e
    obtain ⟨hc, hcomp⟩ := ih h1
    refine ⟨hc, ?_⟩
    show (ps.foldl ComponentContainer.removeComponent (c.removeComponent e)).components = _
    rw [hcomp, components_removeComponent, eraseP_entity_eq_filter _ _ h.2, List.filter_filter]
    congr 1
    funext r
    by_cases hr : r.entity = e <;> simp [hr]

theorem Consistent.getComponent_foldl_removeComponent_mem {c : ComponentContainer F}
    (h : c.Consistent) {pending : List Entity} {e : Entity} (he : e ∈ pending) :
    (pending.foldl ComponentContainer.removeComponent c).getComponent e = none := by
  obtain ⟨hc, hcomp⟩ := h.foldl_removeComponent pending
  rw [hc.getComponent_eq_none_iff, hcomp]
  intro r hr hre
  have := (List.mem_filter.mp hr).2
  simp [hre, he] at this

theorem Consistent.getComponentRecord_foldl_removeComponent {c : ComponentContainer F}
    (h : c.Consistent) {pending : List Entity} {x : Entity} (hx : x ∉ pending) :
    (pending.foldl ComponentContainer.removeComponent c).getComponentRecord x = c.getComponentRecord x := by
  obtain ⟨hc, hcomp⟩ := h.foldl_removeComponent pending
  rw [hc.getComponentRecord_eq_find?, h.getComponentRecord_eq_find?, hcomp, List.find?_filter]
  congr 1
  funext r
  by_cases hr : r.entity = x <;> simp [hr, hx]

end ComponentContainer

namespace EntityManager

variable {C : Type} [DecidableEq C] {F : C → Type} {T : Type} [DecidableEq T] {S : Type}

theorem getComponentsContainer_lastEntityId (slot : C → List C → Nat) (em : EntityManager C F T S)
    (k : C) : (getComponentsContainer slot em k).1.lastEntityId = em.lastEntityId := by
  unfold getComponentsContainer
  cases umapFind em.componentContainers k <;> rfl

theorem getComponentsContainer_entities (slot : C → List C → Nat) (em : EntityManager C F T S)
    (k : C) : (getComponentsContainer slot em k).1.entities = em.entities := by
  unfold getComponentsContainer
  cases umapFind em.componentContainers k <;> rfl

theorem getComponentsContainer_entitiesToRemove (slot : C → List C → Nat)
    (em : EntityManager C F T S) (k : C) :
    (getComponentsContainer slot em k).1.entitiesToRemove = em.entitiesToRemove := by
  unfold getComponentsContainer
  cases umapFind em.componentContainers k <;> rfl

theorem getComponentsContainer_systems (slot : C → List C → Nat) (em : EntityManager C F T S)
    (k : C) : (getComponentsContainer slot em k).1.systems = em.systems := by
  unfold getComponentsContainer
  cases umapFind em.componentContainers k <;> rfl

theorem StoresOk.getComponentsContainer {em : EntityManager C F T S} (h : em.StoresOk)
    (slot : C → List C → Nat) (k : C) :
    (EntityManager.getComponentsContainer slot em k).1.StoresOk ∧
      (EntityManager.getComponentsContainer slot em k).2.Consistent := by
  unfold EntityManager.getComponentsContainer umapFind
  cases hf : em.componentContainers.dlookup k with
  | some c => exact ⟨h, h.2 ⟨k, c⟩ (List.of_mem_dlookup hf)⟩
  | none =>
    have hk := List.dlookup_eq_none.mp hf
    refine ⟨⟨nodupKeys_umapInsertNew slot h.1 hk _, ?_⟩, ComponentContainer.consistent_empty⟩
    intro s hs
    rcases (mem_umapInsertNew slot _ k _ s).mp hs with rfl | hs
    · exact ComponentContainer.consistent_empty
    · exact h.2 s hs

theorem StoresOk.storeContainer {em : EntityManager C F T S} (h : em.StoresOk) (k : C)
    {c : ComponentContainer (F k)} (hc : c.Consistent) : (storeContainer em k c).StoresOk := by
  refine ⟨?_, ?_⟩
  · show (umapReplace em.componentContainers k c).keys.Nodup
    rw [keys_umapReplace]
    exact h.1
  · intro s hs
    rcases mem_umapReplace hs with rfl | hs
    · exact hc
    · exact h.2 s hs

theorem getEntities_eq (em : EntityManager C F T S) : em.getEntities = em.entities :=
  rfl

theorem foldl_erase_sublist (pending : List Entity) (l : List Entity) :
    (pending.foldl (fun l e => l.erase e) l).Sublist l := by
  induction pending generalizing l with
  | nil => exact List.Sublist.refl _
  | cons p ps ih => exact (ih (l.erase p)).trans (List.erase_sublist p l)

theorem mem_foldl_erase_of_not_mem {pending : List Entity} {x : Entity} (hx : x ∉ pending)
    (l : List Entity) : x ∈ pending.foldl (fun l e => l.erase e) l ↔ x ∈ l := by
  induction pending generalizing l with
  | nil => exact Iff.rfl
  | cons p ps ih =>
    simp only [List.mem_cons, not_or] at hx
    simp only [List.foldl_cons]
    rw [ih hx.2, List.mem_erase_of_ne hx.1]

theorem not_mem_foldl_erase_of_mem {pending : List Entity} {e : Entity} (he : e ∈ pending)
    {l : List Entity} (hl : l.Nodup) : e ∉ pending.foldl (fun l e => l.erase e) l := by
  induction pending generalizing l with
  | nil => simp at he
  | cons p ps ih =>
    simp only [List.foldl_cons]
    by_cases hp : e = p
    · subst hp
      intro hmem
      exact hl.not_mem_erase ((foldl_erase_sublist ps _).subset hmem)
    · rcases List.mem_cons.mp he with h | h
      · exact absurd h hp
      · exact ih h (hl.erase p)

theorem foldl_removePendingEntity (pending : List Entity) (em : EntityManager C F T S) :
    pending.foldl removePendingEntity em =
      { em with
        componentContainers :=
          em.componentContainers.map fun s =>
            ⟨s.1, pending.foldl ComponentContainer.removeComponent s.2⟩
        entities := pending.foldl (fun l e => l.erase e) em.entities } := by
  induction pending generalizing em with
  | nil => simp
  | cons p ps ih =>
    simp only [List.foldl_cons]
    rw [ih]
    unfold removePendingEntity
    simp only [find_if_erase_eq_eraseP, eraseP_beq_eq_erase, List.map_map]
    rfl

theorem removePendingEntites_eq (em : EntityManager C F T S) :
    em.removePendingEntites =
      { em with
        componentContainers :=
          em.componentContainers.map fun s =>
            ⟨s.1, em.entitiesToRemove.foldl ComponentContainer.removeComponent s.2⟩
        entities := em.entitiesToRemove.foldl (fun l e => l.erase e) em.entities
        entitiesToRemove := [] } := by
  unfold removePendingEntites
  rw [foldl_removePendingEntity]

theorem StoresOk.removePendingEntites {em : EntityManager C F T S} (h : em.StoresOk) :
    em.removePendingEntites.StoresOk := by
  rw [removePendingEntites_eq]
  refine ⟨?_, ?_⟩
  · show (List.map _ em.componentContainers).keys.Nodup
    have : (List.map (fun s : (Σ k : C, ComponentContainer (F k)) =>
        (⟨s.1, em.entitiesToRemove.foldl ComponentContainer.removeComponent s.2⟩ :
          (Σ k : C, ComponentContainer (F k)))) em.componentContainers).keys =
        em.componentContainers.keys := by
      simp [List.keys, List.map_map, Function.comp_def]
    rw [this]
    exact h.1
  · intro s hs
    obtain ⟨s0, hs0, rfl⟩ := List.mem_map.mp hs
    exact ((h.2 s0 hs0).foldl_removeComponent _).1

theorem dlookup_removePendingEntites (em : EntityManager C F T S) (k : C) :
    em.removePendingEntites.componentContainers.dlookup k =
      (em.componentContainers.dlookup k).map
        (fun c => em.entitiesToRemove.foldl ComponentContainer.removeComponent c) := by
  rw [removePendingEntites_eq]
  exact List.dlookup_map₂ (f := fun _ c => em.entitiesToRemove.foldl
    ComponentContainer.removeComponent c) k

theorem getComponent_snd (slot : C → List C → Nat) (em : EntityManager C F T S) (k : C)
    (e : Entity) :
    (getComponent slot em k e).2 =
      match em.componentContainers.dlookup k with
      | some c => c.getComponent e
      | none => none := by
  unfold getComponent getComponentsContainer umapFind
  cases em.componentContainers.dlookup k <;> rfl

theorem getComponentRecord_eq (slot : C → List C → Nat) (em : EntityManager C F T S) (k : C)
    (e : Entity) :
    getComponentRecord slot em k e =
      match em.componentContainers.dlookup k with
      | some c => c.getComponentRecord e
      | none => none := by
  unfold getComponentRecord getComponentsContainer umapFind
  cases em.componentContainers.dlookup k <;> rfl

theorem getComponents_snd (slot : C → List C → Nat) (em : EntityManager C F T S) (k : C) :
    (getComponents slot em k).2 =
      match em.componentContainers.dlookup k with
      | some c => c.components
      | none => [] := by
  unfold getComponents getComponentsContainer umapFind
  cases em.componentContainers.dlookup k <;> rfl

end EntityManager

section RunLemmas

variable {C : Type} [DecidableEq C] {F : C → Type} {T : Type} [DecidableEq T] {S : Type}
variable (slotC : C → List C → Nat) (slotT : T → List T → Nat)

theorem run_snoc (ops : List (Op C F T S)) (op : Op C F T S) :
    run slotC slotT (ops ++ [op]) = (op.apply slotC slotT (run slotC slotT ops)).1 := by
  simp [run, runFrom, List.foldl_append]

theorem createdFrom_append (em : EntityManager C F T S) (ops₁ ops₂ : List (Op C F T S)) :
    createdFrom slotC slotT em (ops₁ ++ ops₂) =
      createdFrom slotC slotT em ops₁ ++ createdFrom slotC slotT (runFrom slotC slotT em ops₁) ops₂ := by
  induction ops₁ generalizing em with
  | nil => rfl
  | cons op ops ih =>
    show _ ++ createdFrom slotC slotT _ (ops ++ ops₂) = _
    rw [ih, ← List.append_assoc]
    rfl

theorem created_snoc (ops : List (Op C F T S)) (op : Op C F T S) :
    created slotC slotT (ops ++ [op]) =
      created slotC slotT ops ++ ((op.apply slotC slotT (run slotC slotT ops)).2).toList := by
  unfold created
  rw [createdFrom_append]
  simp [createdFrom, run]

theorem createCount_snoc (ops : List (Op C F T S)) (op : Op C F T S) :
    createCount (ops ++ [op]) = createCount ops + if op.isCreateEntity then 1 else 0 := by
  unfold createCount
  rw [List.countP_append]
  by_cases h : op.isCreateEntity = true <;> simp [List.countP_cons, h]

theorem apply_storesOk {em : EntityManager C F T S} (h : em.StoresOk) (op : Op C F T S) :
    (op.apply slotC slotT em).1.StoresOk := by
  cases op with
  | createEntity => exact h
  | removeEntity e => exact h
  | createComponent k e a =>
    obtain ⟨h1, h2⟩ := h.getComponentsContainer slotC k
    exact h1.storeContainer k (h2.createComponent e a)
  | getComponent k e => exact (h.getComponentsContainer slotC k).1
  | getComponents k => exact (h.getComponentsContainer slotC k).1
  | removeComponentPtr k r =>
    obtain ⟨h1, h2⟩ := h.getComponentsContainer slotC k
    exact h1.storeContainer k (h2.removeComponentPtr r)
  | removeComponent k e =>
    obtain ⟨h1, h2⟩ := h.getComponentsContainer slotC k
    exact h1.storeContainer k (h2.removeComponent e)
  | createSystem t s => exact h
  | update => exact h.removePendingEntites

theorem storesOk_run (ops : List (Op C F T S)) : (run slotC slotT ops).StoresOk := by
  induction ops using List.reverseRecOn with
  | nil => exact ⟨List.nodupKeys_nil, by intro s hs; cases hs⟩
  | append_singleton ops op ih =>
    rw [run_snoc]
    exact apply_storesOk slotC slotT ih op

theorem apply_lastEntityId (em : EntityManager C F T S) (op : Op C F T S) :
    (op.apply slotC slotT em).1.lastEntityId =
      if op.isCreateEntity then (em.lastEntityId + 1) % UINT_SIZE else em.lastEntityId := by
  cases op <;>
    simp [Op.apply, Op.isCreateEntity, EntityManager.createEntity, EntityManager.removeEntity,
      EntityManager.createComponent, EntityManager.getComponent, EntityManager.getComponents,
      EntityManager.removeComponentPtr, EntityManager.removeComponent,
      EntityManager.createSystem, EntityManager.storeContainer,
      EntityManager.getComponentsContainer_lastEntityId, EntityManager.removePendingEntites_eq]

theorem apply_entities (em : EntityManager C F T S) (op : Op C F T S) :
    (op.apply slotC slotT em).1.entities =
      match op with
      | .createEntity => em.entities ++ [em.lastEntityId]
      | .update => em.entitiesToRemove.foldl (fun l e => l.erase e) em.entities
      | _ => em.entities := by
  cases op <;>
    simp [Op.apply, EntityManager.createEntity, EntityManager.removeEntity,
      EntityManager.createComponent, EntityManager.getComponent, EntityManager.getComponents,
      EntityManager.removeComponentPtr, EntityManager.removeComponent,
      EntityManager.createSystem, EntityManager.storeContainer,
      EntityManager.getComponentsContainer_entities, EntityManager.removePendingEntites_eq]

theorem apply_entitiesToRemove (em : EntityManager C F T S) (op : Op C F T S) :
    (op.apply slotC slotT em).1.entitiesToRemove =
      match op with
      | .removeEntity e => em.entitiesToRemove ++ [e]
      | .update => []
      | _ => em.entitiesToRemove := by
  cases op <;>
    simp [Op.apply, EntityManager.createEntity, EntityManager.removeEntity,
      EntityManager.createComponent, EntityManager.getComponent, EntityManager.getComponents,
      EntityManager.removeComponentPtr, EntityManager.removeComponent,
      EntityManager.createSystem, EntityManager.storeContainer,
      EntityManager.getComponentsContainer_entitiesToRemove,
      EntityManager.removePendingEntites_eq]

theorem apply_systems (em : EntityManager C F T S) (op : Op C F T S) :
    (op.apply slotC slotT em).1.systems =
      match op.system? with
      | some s => umapAssign slotT em.systems s.1 s.2
      | none => em.systems := by
  cases op <;>
    simp [Op.apply, Op.system?, EntityManager.createEntity, EntityManager.removeEntity,
      EntityManager.createComponent, EntityManager.getComponent, EntityManager.getComponents,
      EntityManager.removeComponentPtr, EntityManager.removeComponent,
      EntityManager.createSystem, EntityManager.storeContainer,
      EntityManager.getComponentsContainer_systems, EntityManager.removePendingEntites_eq]

theorem apply_created (em : EntityManager C F T S) (op : Op C F T S) :
    (op.apply slotC slotT em).2 = if op.isCreateEntity then some em.lastEntityId else none := by
  cases op <;> simp [Op.apply, Op.isCreateEntity, EntityManager.createEntity]

theorem run_lastEntityId (ops : List (Op C F T S)) :
    (run slotC slotT ops).lastEntityId = (1 + createCount ops) % UINT_SIZE := by
  induction ops using List.reverseRecOn with
  | nil => rfl
  | append_singleton ops op ih =>
    rw [run_snoc, apply_lastEntityId, createCount_snoc, ih]
    by_cases h : op.isCreateEntity = true
    · simp only [h, if_true]
      unfold UINT_SIZE
      omega
    · simp only [h, Bool.false_eq_true, if_false, Nat.add_zero]

theorem created_eq (ops : List (Op C F T S)) :
    created slotC slotT ops =
      (List.range (createCount ops)).map (fun i => (1 + i) % UINT_SIZE) := by
  induction ops using List.reverseRecOn with
  | nil => rfl
  | append_singleton ops op ih =>
    rw [created_snoc, apply_created, createCount_snoc, ih, run_lastEntityId]
    by_cases h : op.isCreateEntity = true
    · simp only [h, if_true, Option.toList, List.range_succ, List.map_append, List.map_cons,
        List.map_nil]
    · simp only [h, Bool.false_eq_true, if_false, Option.toList, List.append_nil, Nat.add_zero]

theorem run_entities_mem (ops : List (Op C F T S)) :
    ∀ x ∈ (run slotC slotT ops).entities, ∃ i, i < createCount ops ∧ x = (1 + i) % UINT_SIZE := by
  induction ops using List.reverseRecOn with
  | nil => intro x hx; cases hx
  | append_singleton ops op ih =>
    intro x hx
    rw [run_snoc, apply_entities] at hx
    rw [createCount_snoc]
    cases op with
    | createEntity =>
      simp only [List.mem_append, List.mem_singleton] at hx
      rcases hx with hx | hx
      · obtain ⟨i, hi, hxi⟩ := ih x hx
        exact ⟨i, by simp [Op.isCreateEntity]; omega, hxi⟩
      · rw [run_lastEntityId] at hx
        exact ⟨createCount ops, by simp [Op.isCreateEntity], hx⟩
    | update =>
      obtain ⟨i, hi, hxi⟩ := ih x ((EntityManager.foldl_erase_sublist _ _).subset hx)
      exact ⟨i, by simp [Op.isCreateEntity]; exact hi, hxi⟩
    | _ =>
      obtain ⟨i, hi, hxi⟩ := ih x hx
      exact ⟨i, by simp [Op.isCreateEntity]; exact hi, hxi⟩

theorem run_entities_nodup (ops : List (Op C F T S)) (h : createCount ops ≤ UINT_SIZE) :
    (run slotC slotT ops).entities.Nodup := by
  induction ops using List.reverseRecOn with
  | nil => exact List.nodup_nil
  | append_singleton ops op ih =>
    rw [run_snoc, apply_entities]
    rw [createCount_snoc] at h
    cases op with
    | createEntity =>
      simp only [Op.isCreateEntity, if_true] at h
      have hn := ih (by omega)
      rw [List.nodup_append]
      refine ⟨hn, List.nodup_singleton _, ?_⟩
      intro x hx hx'
      simp only [List.mem_singleton] at hx'
      obtain ⟨i, hi, hxi⟩ := run_entities_mem slotC slotT ops x hx
      rw [hx', run_lastEntityId] at hxi
      simp only [UINT_SIZE] at hxi h
      have hmod : (1 + createCount ops) % 4294967296 = (1 + i) % 4294967296 := hxi
      clear ih hxi
      omega
    | update =>
      simp only [Op.isCreateEntity, Bool.false_eq_true, if_false, Nat.add_zero] at h
      exact (ih h).sublist (EntityManager.foldl_erase_sublist _ _)
    | _ =>
      simp only [Op.isCreateEntity, Bool.false_eq_true, if_false, Nat.add_zero] at h
      exact ih h

end RunLemmas

section RegistryClaims

variable {C : Type} [DecidableEq C] {F : C → Type} {T : Type} [DecidableEq T] {S : Type}
variable (slotC : C → List C → Nat) (slotT : T → List T → Nat)

theorem createCount_replicate (n : Nat) :
    createCount (List.replicate n (Op.createEntity : Op C F T S)) = n := by
  induction n with
  | zero => rfl
  | succ n ih =>
    rw [List.replicate_succ', createCount_snoc, ih]
    rfl

theorem run_replicate_createEntity (n : Nat) :
    (run slotC slotT (List.replicate n (Op.createEntity : Op C F T S))).entities =
        (List.range n).map (fun i => (1 + i) % UINT_SIZE) ∧
      (run slotC slotT (List.replicate n (Op.createEntity : Op C F T S))).entitiesToRemove = [] := by
  induction n with
  | zero => exact ⟨rfl, rfl⟩
  | succ n ih =>
    rw [List.replicate_succ', run_snoc, apply_entities, apply_entitiesToRemove, ih.1, ih.2,
      run_lastEntityId, createCount_replicate, List.range_succ, List.map_append]
    exact ⟨rfl, rfl⟩

theorem flush_after_replicate (n : Nat) (x : Entity) :
    (run slotC slotT
        (List.replicate n .createEntity ++ [.removeEntity x] : List (Op C F T S))).entitiesToRemove =
      [x] ∧
    (run slotC slotT (List.replicate n .createEntity ++ [.removeEntity x] :
        List (Op C F T S))).removePendingEntites.entities =
      ((List.range n).map (fun i => (1 + i) % UINT_SIZE)).erase x := by
  have hrun := run_replicate_createEntity (F := F) (S := S) slotC slotT n
  have h1 : (run slotC slotT
      (List.replicate n .createEntity ++ [.removeEntity x] : List (Op C F T S))).entitiesToRemove =
      [x] := by
    rw [run_snoc, apply_entitiesToRemove, hrun.2]
    rfl
  refine ⟨h1, ?_⟩
  rw [EntityManager.removePendingEntites_eq]
  show List.foldl (fun (l : List Entity) e => l.erase e) _ _ = _
  rw [h1, run_snoc, apply_entities, hrun.1]
  rfl

/-- C1 (as amended): for every manager state reached by a call sequence with at most `2 ^ 32`
`createEntity` calls, and every entity `e` in the pending list, the flush that `update(delta)`
runs before any system leaves `e` out of `getEntities()`, makes `getComponent<T>(e)` absent
for every component type `T`, whenever the component was attached, and empties the pending
list. -/
theorem flush_removes_pending (ops : List (Op C F T S)) (e : Entity)
    (hcount : createCount ops ≤ UINT_SIZE)
    (he : e ∈ (run slotC slotT ops).entitiesToRemove) :
    e ∉ (run slotC slotT ops).removePendingEntites.getEntities ∧
    (∀ k, (EntityManager.getComponent slotC (run slotC slotT ops).removePendingEntites k e).2 =
      none) ∧
    (∀ k, EntityManager.getComponentRecord slotC (run slotC slotT ops).removePendingEntites k e =
      none) ∧
    (run slotC slotT ops).removePendingEntites.entitiesToRemove = [] ∧
    ∀ (D X : Type) (call : S → D → EntityManager C F T S × X → EntityManager C F T S × X)
      (delta : D) (x : X),
      EntityManager.update call delta (run slotC slotT ops, x) =
        (run slotC slotT ops).removePendingEntites.systems.foldl
          (fun w system => call system.2 delta w) ((run slotC slotT ops).removePendingEntites, x) := by
  have hok := storesOk_run slotC slotT ops
  have hnone : ∀ k, (EntityManager.getComponent slotC
      (run slotC slotT ops).removePendingEntites k e).2 = none := by
    intro k
    rw [EntityManager.getComponent_snd, EntityManager.dlookup_removePendingEntites]
    cases hf : (run slotC slotT ops).componentContainers.dlookup k with
    | none => rfl
    | some c =>
      have hc : c.Consistent := hok.2 ⟨k, c⟩ (List.of_mem_dlookup hf)
      exact hc.getComponent_foldl_removeComponent_mem he
  refine ⟨?_, hnone, ?_, ?_, ?_⟩
  · rw [EntityManager.removePendingEntites_eq]
    exact EntityManager.not_mem_foldl_erase_of_mem he (run_entities_nodup slotC slotT ops hcount)
  · intro k
    have h1 := hnone k
    rw [EntityManager.getComponent_snd] at h1
    rw [EntityManager.getComponentRecord_eq]
    cases hf : (run slotC slotT ops).removePendingEntites.componentContainers.dlookup k with
    | none => rfl
    | some c =>
      rw [hf] at h1
      show c.getComponentRecord e = none
      unfold ComponentContainer.getComponentRecord
      rw [show c.getComponent e = none from h1]
      rfl
  · rw [EntityManager.removePendingEntites_eq]
  · intro D X call delta x
    rfl

/-- Instance of C1, the scenario of the specification: `Health{hp:10}` on `e1`, then
`removeEntity(e1)`; the record is readable before the flush, and after it the record is absent
and `e1` is not in `getEntities()`. -/
theorem flush_removes_pending_witness :
    createCount ([.createEntity, .createComponent () 1 10, .removeEntity 1] :
      List (Op Unit (fun _ => Nat) Unit Unit)) ≤ UINT_SIZE ∧
    1 ∈ (run slotFront slotFront ([.createEntity, .createComponent () 1 10, .removeEntity 1] :
      List (Op Unit (fun _ => Nat) Unit Unit))).entitiesToRemove ∧
    EntityManager.getComponentRecord slotFront
      (run slotFront slotFront ([.createEntity, .createComponent () 1 10, .removeEntity 1] :
        List (Op Unit (fun _ => Nat) Unit Unit))) () 1 =
      some { componentId := 0, entity := 1, fields := 10 } ∧
    1 ∉ (run slotFront slotFront ([.createEntity, .createComponent () 1 10, .removeEntity 1] :
      List (Op Unit (fun _ => Nat) Unit Unit))).removePendingEntites.getEntities ∧
    EntityManager.getComponentRecord slotFront
      (run slotFront slotFront ([.createEntity, .createComponent () 1 10, .removeEntity 1] :
        List (Op Unit (fun _ => Nat) Unit Unit))).removePendingEntites () 1 = none :=
  ⟨by decide, by decide, by decide,
    (flush_removes_pending slotFront slotFront
      ([.createEntity, .createComponent () 1 10, .removeEntity 1] :
        List (Op Unit (fun _ => Nat) Unit Unit)) 1 (by decide) (by decide)).1,
    (flush_removes_pending slotFront slotFront
      ([.createEntity, .createComponent () 1 10, .removeEntity 1] :
        List (Op Unit (fun _ => Nat) Unit Unit)) 1 (by decide) (by decide)).2.2.1 ()⟩

/-- C1, as stated, fails once the 32-bit entity counter has wrapped: after `2 ^ 32 + 1` calls of
`createEntity` the identifier 1 is in the entity vector twice; `removeEntity(1)` followed by the
flush erases only the first occurrence, so 1 is still in `getEntities()`. -/
theorem flush_keeps_second_occurrence :
    1 ∈ (run slotFront slotFront
      (List.replicate (UINT_SIZE + 1) .createEntity ++ [.removeEntity 1] :
        List (Op Unit (fun _ => Unit) Unit Unit))).entitiesToRemove ∧
    1 ∈ (run slotFront slotFront
      (List.replicate (UINT_SIZE + 1) .createEntity ++ [.removeEntity 1] :
        List (Op Unit (fun _ => Unit) Unit Unit))).removePendingEntites.getEntities := by
  obtain ⟨h1, h2⟩ := flush_after_replicate (F := fun _ => Unit) (S := Unit)
    (slotFront : Unit → List Unit → Nat) (slotFront : Unit → List Unit → Nat) (UINT_SIZE + 1) 1
  have hlast : (1 + UINT_SIZE) % UINT_SIZE = 1 := by
    unfold UINT_SIZE
    rfl
  have hmem : (1 : Entity) ∈ (List.range UINT_SIZE).map (fun i => (1 + i) % UINT_SIZE) :=
    List.mem_map.mpr ⟨0, List.mem_range.mpr (by unfold UINT_SIZE; omega), rfl⟩
  constructor
  · rw [h1]
    exact List.mem_singleton_self 1
  · rw [EntityManager.getEntities_eq, h2, List.range_succ, List.map_append, List.map_singleton,
      hlast, List.erase_append_left _ hmem]
    exact List.mem_append_right _ (List.mem_singleton_self 1)

/-- C2: `removeEntity(e)` appends `e` to the pending list and changes nothing else: the entity
vector, the counter, the containers and the systems are the same, so a live `e` stays in
`getEntities()`, and `getComponent<T>(x)` and `getComponents<T>()` return what they returned
before, for every component type `T` and entity `x`. -/
theorem removeEntity_only_pending (em : EntityManager C F T S) (e : Entity) :
    (em.removeEntity e).entitiesToRemove = em.entitiesToRemove ++ [e] ∧
    (em.removeEntity e).getEntities = em.getEntities ∧
    (e ∈ em.getEntities → e ∈ (em.removeEntity e).getEntities) ∧
    (em.removeEntity e).lastEntityId = em.lastEntityId ∧
    (em.removeEntity e).componentContainers = em.componentContainers ∧
    (em.removeEntity e).systems = em.systems ∧
    ∀ k x,
      (EntityManager.getComponent slotC (em.removeEntity e) k x).2 =
        (EntityManager.getComponent slotC em k x).2 ∧
      EntityManager.getComponentRecord slotC (em.removeEntity e) k x =
        EntityManager.getComponentRecord slotC em k x ∧
      (EntityManager.getComponents slotC (em.removeEntity e) k).2 =
        (EntityManager.getComponents slotC em k).2 :=
  ⟨rfl, rfl, fun h => h, rfl, rfl, rfl, fun k x =>
    ⟨by rw [EntityManager.getComponent_snd, EntityManager.getComponent_snd]; rfl,
      by rw [EntityManager.getComponentRecord_eq, EntityManager.getComponentRecord_eq]; rfl,
      by rw [EntityManager.getComponents_snd, EntityManager.getComponents_snd]; rfl⟩⟩

/-- C6 (as amended): for every call sequence on one manager with fewer than `2 ^ 32` calls of
`createEntity`, the identifiers these calls return are strictly increasing in call order, hence
pairwise distinct and at least 1, and no identifier returned in a prefix of the sequence is
returned again by a later call. -/
theorem created_strictly_increasing (ops : List (Op C F T S))
    (h : createCount ops < UINT_SIZE) :
    (created slotC slotT ops).Pairwise (· < ·) ∧
    (created slotC slotT ops).Nodup ∧
    (∀ x ∈ created slotC slotT ops, 1 ≤ x) ∧
    ∀ ops₁ ops₂, ops = ops₁ ++ ops₂ →
      ∀ x ∈ created slotC slotT ops₁, x ∉ createdFrom slotC slotT (run slotC slotT ops₁) ops₂ := by
  have hlt : (created slotC slotT ops).Pairwise (· < ·) := by
    rw [created_eq, List.pairwise_map]
    refine List.Pairwise.imp_of_mem ?_ (List.pairwise_lt_range _)
    intro a b ha hb hab
    have ha' := List.mem_range.mp ha
    have hb' := List.mem_range.mp hb
    show (1 + a) % UINT_SIZE < (1 + b) % UINT_SIZE
    simp only [UINT_SIZE] at h ⊢
    omega
  have hnd : (created slotC slotT ops).Nodup := hlt.imp (fun h => Nat.ne_of_lt h)
  refine ⟨hlt, hnd, ?_, ?_⟩
  · intro x hx
    rw [created_eq] at hx
    obtain ⟨i, hi, rfl⟩ := List.mem_map.mp hx
    have hi' := List.mem_range.mp hi
    show (1 : Nat) ≤ (1 + i) % UINT_SIZE
    simp only [UINT_SIZE] at h ⊢
    omega
  · intro ops₁ ops₂ hops x hx hx'
    subst hops
    have happ : created slotC slotT (ops₁ ++ ops₂) =
        created slotC slotT ops₁ ++ createdFrom slotC slotT (run slotC slotT ops₁) ops₂ :=
      createdFrom_append slotC slotT _ ops₁ ops₂
    rw [happ] at hnd
    exact (List.nodup_append.mp hnd).2.2 hx hx'

/-- Instance of C6: entity 1 is created, removed and flushed; the next `createEntity` returns 2. -/
theorem created_strictly_increasing_witness :
    createCount ([.createEntity, .removeEntity 1, .update, .createEntity] :
      List (Op Unit (fun _ => Unit) Unit Unit)) < UINT_SIZE ∧
    created slotFront slotFront ([.createEntity, .removeEntity 1, .update, .createEntity] :
      List (Op Unit (fun _ => Unit) Unit Unit)) = [1, 2] ∧
    (created slotFront slotFront ([.createEntity, .removeEntity 1, .update, .createEntity] :
      List (Op Unit (fun _ => Unit) Unit Unit))).Pairwise (· < ·) :=
  ⟨by decide, by decide,
    (created_strictly_increasing slotFront slotFront
      ([.createEntity, .removeEntity 1, .update, .createEntity] :
        List (Op Unit (fun _ => Unit) Unit Unit)) (by decide)).1⟩

/-- C6, as stated, fails at the wrap of the 32-bit counter: of `2 ^ 32` successive calls of
`createEntity` the last but one returns `4294967295` and the last returns `0`, and one call
later the identifier 1 is returned for the second time. -/
theorem created_wraps :
    (created slotFront slotFront (List.replicate UINT_SIZE .createEntity :
      List (Op Unit (fun _ => Unit) Unit Unit)))[4294967294]? = some 4294967295 ∧
    (created slotFront slotFront (List.replicate UINT_SIZE .createEntity :
      List (Op Unit (fun _ => Unit) Unit Unit)))[4294967295]? = some 0 ∧
    ¬ (created slotFront slotFront (List.replicate UINT_SIZE .createEntity :
      List (Op Unit (fun _ => Unit) Unit Unit))).Pairwise (· < ·) ∧
    ¬ (created slotFront slotFront (List.replicate (UINT_SIZE + 1) .createEntity :
      List (Op Unit (fun _ => Unit) Unit Unit))).Nodup := by
  have h1 : (created slotFront slotFront (List.replicate UINT_SIZE .createEntity :
      List (Op Unit (fun _ => Unit) Unit Unit)))[4294967294]? = some 4294967295 := by
    rw [created_eq, createCount_replicate, List.getElem?_map, List.getElem?_range]
    · rfl
    · unfold UINT_SIZE
      omega
  have h2 : (created slotFront slotFront (List.replicate UINT_SIZE .createEntity :
      List (Op Unit (fun _ => Unit) Unit Unit)))[4294967295]? = some 0 := by
    rw [created_eq, createCount_replicate, List.getElem?_map, List.getElem?_range]
    · rfl
    · unfold UINT_SIZE
      omega
  refine ⟨h1, h2, ?_, ?_⟩
  · intro hp
    have := List.pairwise_iff_getElem.mp hp
    obtain ⟨ha, hav⟩ := List.getElem?_eq_some_iff.mp h1
    obtain ⟨hb, hbv⟩ := List.getElem?_eq_some_iff.mp h2
    have hlt := this 4294967294 4294967295 ha hb (by omega)
    rw [hav, hbv] at hlt
    exact Nat.not_lt_zero _ hlt
  · rw [created_eq, createCount_replicate, List.range_succ, List.map_append, List.nodup_append]
    rintro ⟨-, -, hdis⟩
    refine hdis (a := 1) (List.mem_map.mpr ⟨0, List.mem_range.mpr ?_, rfl⟩) ?_
    · unfold UINT_SIZE
      omega
    · unfold UINT_SIZE
      simp

/-- C9: the flush leaves entities that are not pending alone.  For every reachable manager
state and every entity `x` that is not in the pending list, `x` is in `getEntities()` after the
flush exactly when it was before, and for every component type `getComponent<T>(x)` reads the
same record, or is absent as before. -/
theorem flush_keeps_others (ops : List (Op C F T S)) (x : Entity)
    (hx : x ∉ (run slotC slotT ops).entitiesToRemove) :
    (x ∈ (run slotC slotT ops).removePendingEntites.getEntities ↔
      x ∈ (run slotC slotT ops).getEntities) ∧
    ∀ k, EntityManager.getComponentRecord slotC (run slotC slotT ops).removePendingEntites k x =
      EntityManager.getComponentRecord slotC (run slotC slotT ops) k x := by
  have hok := storesOk_run slotC slotT ops
  constructor
  · rw [EntityManager.removePendingEntites_eq]
    exact EntityManager.mem_foldl_erase_of_not_mem hx _
  · intro k
    rw [EntityManager.getComponentRecord_eq, EntityManager.getComponentRecord_eq,
      EntityManager.dlookup_removePendingEntites]
    cases hf : (run slotC slotT ops).componentContainers.dlookup k with
    | none => rfl
    | some c =>
      have hc : c.Consistent := hok.2 ⟨k, c⟩ (List.of_mem_dlookup hf)
      exact hc.getComponentRecord_foldl_removeComponent hx

/-- Instance of C9, the scenario of the specification: entities 1 and 2, `Position{0,0}` on
entity 1 only, nothing pending; after `update(0.016)` the record of entity 1 reads `(0, 0)` and
entity 2 has none. -/
theorem flush_keeps_others_witness :
    1 ∉ (run slotFront slotFront ([.createEntity, .createEntity, .createComponent () 1 (0, 0)] :
      List (Op Unit (fun _ => Int × Int) Unit Unit))).entitiesToRemove ∧
    (run slotFront slotFront ([.createEntity, .createEntity, .createComponent () 1 (0, 0)] :
      List (Op Unit (fun _ => Int × Int) Unit Unit))).getEntities = [1, 2] ∧
    EntityManager.getComponentRecord slotFront
      (EntityManager.update (fun (_ : Unit) (_ : Float) (w : _ × Unit) => w) 0.016
        (run slotFront slotFront ([.createEntity, .createEntity, .createComponent () 1 (0, 0)] :
          List (Op Unit (fun _ => Int × Int) Unit Unit)), ())).1 () 1 =
      some { componentId := 0, entity := 1, fields := (0, 0) } ∧
    EntityManager.getComponentRecord slotFront
      (EntityManager.update (fun (_ : Unit) (_ : Float) (w : _ × Unit) => w) 0.016
        (run slotFront slotFront ([.createEntity, .createEntity, .createComponent () 1 (0, 0)] :
          List (Op Unit (fun _ => Int × Int) Unit Unit)), ())).1 () 2 = none :=
  ⟨by decide, by decide,
    ((flush_keeps_others slotFront slotFront
      ([.createEntity, .createEntity, .createComponent () 1 (0, 0)] :
        List (Op Unit (fun _ => Int × Int) Unit Unit)) 1 (by decide)).2 ()).trans (by decide),
    ((flush_keeps_others slotFront slotFront
      ([.createEntity, .createEntity, .createComponent () 1 (0, 0)] :
        List (Op Unit (fun _ => Int × Int) Unit Unit)) 2 (by decide)).2 ()).trans (by decide)⟩

end RegistryClaims

section SystemLemmas

variable {K : Type} [DecidableEq K] {V : K → Type}

theorem nodupKeys_umapAssign (slot : K → List K → Nat) {m : List (Sigma V)} (h : m.NodupKeys)
    (k : K) (v : V k) : (umapAssign slot m k v).NodupKeys := by
  unfold umapAssign
  by_cases hk : k ∈ m.keys
  · simp only [hk, if_true]
    show (umapReplace m k v).keys.Nodup
    rw [keys_umapReplace]
    exact h
  · simp only [hk, if_false]
    exact nodupKeys_umapInsertNew slot h hk v

theorem dlookup_umapAssign_self (slot : K → List K → Nat) {m : List (Sigma V)}
    (h : m.NodupKeys) (k : K) (v : V k) : (umapAssign slot m k v).dlookup k = some v := by
  unfold umapAssign
  by_cases hk : k ∈ m.keys
  · simp only [hk, if_true]
    exact dlookup_umapReplace_self hk v
  · simp only [hk, if_false]
    rw [List.perm_dlookup k (nodupKeys_umapInsertNew slot h hk v)
      (List.nodupKeys_cons.mpr ⟨hk, h⟩) (perm_umapInsertNew slot m k v)]
    exact List.dlookup_cons_eq _ _ _

theorem dlookup_umapAssign_ne (slot : K → List K → Nat) {m : List (Sigma V)}
    (h : m.NodupKeys) {k k' : K} (hne : k' ≠ k) (v : V k) :
    (umapAssign slot m k v).dlookup k' = m.dlookup k' := by
  unfold umapAssign
  by_cases hk : k ∈ m.keys
  · simp only [hk, if_true]
    exact dlookup_umapReplace_ne m hne v
  · simp only [hk, if_false]
    rw [List.perm_dlookup k' (nodupKeys_umapInsertNew slot h hk v)
      (List.nodupKeys_cons.mpr ⟨hk, h⟩) (perm_umapInsertNew slot m k v)]
    exact List.dlookup_cons_ne _ _ hne

theorem mem_keys_umapAssign (slot : K → List K → Nat) (m : List (Sigma V)) (k : K) (v : V k)
    (k' : K) : k' ∈ (umapAssign slot m k v).keys ↔ k' = k ∨ k' ∈ m.keys := by
  unfold umapAssign
  by_cases hk : k ∈ m.keys
  · simp only [hk, if_true, keys_umapReplace]
    constructor
    · exact Or.inr
    · rintro (rfl | h)
      · exact hk
      · exact h
  · simp only [hk, if_false]
    show k' ∈ List.map Sigma.fst (umapInsertNew slot m k v) ↔ _
    rw [((perm_umapInsertNew slot m k v).map Sigma.fst).mem_iff]
    exact List.mem_cons

theorem umapInsertNew_slotBack (m : List (Sigma V)) (k : K) (v : V k) :
    umapInsertNew slotBack m k v = m ++ [⟨k, v⟩] := by
  unfold umapInsertNew slotBack
  have hlen : m.keys.length = m.length := by simp [List.keys]
  rw [hlen, List.take_length, List.drop_length]

end SystemLemmas

section SystemRunLemmas

variable {C : Type} [DecidableEq C] {F : C → Type} {T : Type} [DecidableEq T] {S : Type}
variable (slotC : C → List C → Nat) (slotT : T → List T → Nat)

theorem createdSystems_snoc (ops : List (Op C F T S)) (op : Op C F T S) :
    createdSystems (ops ++ [op]) = createdSystems ops ++ (op.system?).toList := by
  unfold createdSystems
  rw [List.filterMap_append]
  cases h : op.system? <;> simp [List.filterMap_cons, h]

theorem systems_nodupKeys_run (ops : List (Op C F T S)) :
    (run slotC slotT ops).systems.NodupKeys := by
  induction ops using List.reverseRecOn with
  | nil => exact List.nodupKeys_nil
  | append_singleton ops op ih =>
    rw [run_snoc, apply_systems]
    cases h : op.system? with
    | none => exact ih
    | some s => exact nodupKeys_umapAssign slotT ih s.1 s.2

theorem systems_keys_run (ops : List (Op C F T S)) :
    ∀ t ∈ (run slotC slotT ops).systems.keys, t ∈ (createdSystems ops).keys := by
  induction ops using List.reverseRecOn with
  | nil => intro t ht; cases ht
  | append_singleton ops op ih =>
    intro t ht
    rw [run_snoc, apply_systems] at ht
    rw [createdSystems_snoc]
    cases h : op.system? with
    | none =>
      simp only [h] at ht
      simpa using ih t ht
    | some s =>
      simp only [h] at ht
      rcases (mem_keys_umapAssign (V := fun _ => S) slotT _ s.1 s.2 t).mp ht with rfl | ht'
      · simp [List.keys]
      · have := ih t ht'
        simp only [List.keys, List.map_append, List.mem_append] at this ⊢
        exact Or.inl this

theorem systems_perm_run (ops : List (Op C F T S)) (h : (createdSystems ops).keys.Nodup) :
    (run slotC slotT ops).systems.Perm (createdSystems ops) := by
  induction ops using List.reverseRecOn with
  | nil => exact List.Perm.refl _
  | append_singleton ops op ih =>
    rw [run_snoc, apply_systems]
    rw [createdSystems_snoc] at h ⊢
    cases hs : op.system? with
    | none =>
      rw [hs] at h
      simp only [Option.toList, List.append_nil] at h ⊢
      exact ih h
    | some s =>
      rw [hs] at h
      simp only [Option.toList, List.keys, List.map_append, List.map_cons, List.map_nil] at h
      rw [List.nodup_append] at h
      obtain ⟨hnd, -, hdis⟩ := h
      have hk : s.1 ∉ (run slotC slotT ops).systems.keys := fun hmem =>
        hdis (systems_keys_run slotC slotT ops s.1 hmem) (List.mem_singleton_self _)
      show (umapAssign slotT (run slotC slotT ops).systems s.1 s.2).Perm _
      unfold umapAssign
      simp only [hk, if_false]
      exact (perm_umapInsertNew slotT _ s.1 s.2).trans
        (((ih hnd).cons _).trans (List.perm_append_singleton _ _).symm)

theorem systems_run_slotBack (ops : List (Op C F T S)) (h : (createdSystems ops).keys.Nodup) :
    (run slotC slotBack ops).systems = createdSystems ops := by
  induction ops using List.reverseRecOn with
  | nil => rfl
  | append_singleton ops op ih =>
    rw [run_snoc, apply_systems]
    rw [createdSystems_snoc] at h ⊢
    cases hs : op.system? with
    | none =>
      rw [hs] at h
      simp only [Option.toList, List.append_nil] at h ⊢
      exact ih h
    | some s =>
      rw [hs] at h
      simp only [Option.toList, List.keys, List.map_append, List.map_cons, List.map_nil] at h
      rw [List.nodup_append] at h
      obtain ⟨hnd, -, hdis⟩ := h
      have hk : s.1 ∉ (run slotC slotBack ops).systems.keys := fun hmem =>
        hdis (systems_keys_run slotC slotBack ops s.1 hmem) (List.mem_singleton_self _)
      show umapAssign slotBack (run slotC slotBack ops).systems s.1 s.2 = _
      unfold umapAssign
      simp only [hk, if_false]
      rw [umapInsertNew_slotBack, ih hnd]
      rfl

theorem foldl_log {D : Type} (delta : D) (l : List (Σ _ : T, S)) (em : EntityManager C F T S)
    (acc : List (S × D)) :
    l.foldl (fun (w : EntityManager C F T S × List (S × D)) system =>
        (w.1, w.2 ++ [(system.2, delta)])) (em, acc) =
      (em, acc ++ l.map (fun s => (s.2, delta))) := by
  induction l generalizing acc with
  | nil => simp
  | cons s rest ih =>
    simp only [List.foldl_cons, List.map_cons]
    rw [ih]
    simp

theorem updateCalls_eq {D : Type} (em : EntityManager C F T S) (delta : D) :
    em.updateCalls delta = em.systems.map (fun s => (s.2, delta)) := by
  unfold EntityManager.updateCalls EntityManager.update
  simp only
  rw [foldl_log, EntityManager.removePendingEntites_eq]
  simp

end SystemRunLemmas

section SystemClaims

variable {C : Type} [DecidableEq C] {F : C → Type} {T : Type} [DecidableEq T] {S : Type}
variable (slotC : C → List C → Nat) (slotT : T → List T → Nat)

/-- C7 (as amended): in a manager in which systems of distinct types were created, each call
`update(delta)` calls `update(delta)` once on every one of them, in the iteration order of the
`systems` map.  That order is the standard library's; it is the creation order when the
library puts a new key last. -/
theorem update_calls_every_system_once {D : Type} (ops : List (Op C F T S)) (delta : D)
    (h : (createdSystems ops).keys.Nodup) :
    ((run slotC slotT ops).updateCalls delta).Perm
      ((createdSystems ops).map (fun s => (s.2, delta))) ∧
    (run slotC slotT ops).updateCalls delta =
      (run slotC slotT ops).systems.map (fun s => (s.2, delta)) ∧
    (run slotC slotBack ops).updateCalls delta =
      (createdSystems ops).map (fun s => (s.2, delta)) := by
  refine ⟨?_, updateCalls_eq _ _, ?_⟩
  · rw [updateCalls_eq]
    exact (systems_perm_run slotC slotT ops h).map _
  · rw [updateCalls_eq, systems_run_slotBack slotC ops h]

/-- Instance of C7: two systems of distinct types, with head insertion; one `update` calls each
of them once. -/
theorem update_calls_every_system_once_witness :
    (createdSystems ([.createSystem false 1, .createEntity, .createSystem true 2] :
      List (Op Unit (fun _ => Unit) Bool Nat))).keys.Nodup ∧
    ((run slotFront slotFront ([.createSystem false 1, .createEntity, .createSystem true 2] :
      List (Op Unit (fun _ => Unit) Bool Nat))).updateCalls (16 : Nat)).Perm [(1, 16), (2, 16)] :=
  ⟨by decide,
    (update_calls_every_system_once slotFront slotFront
      ([.createSystem false 1, .createEntity, .createSystem true 2] :
        List (Op Unit (fun _ => Unit) Bool Nat)) (16 : Nat) (by decide)).1⟩

/-- C7, as stated, fails with head insertion: after `createSystem<A>` (system object 1) and then
`createSystem<B>` (system object 2), `update(delta)` calls `B.update` first and `A.update`
second. -/
theorem update_order_not_creation_order :
    (run slotFront slotFront ([.createSystem false 1, .createSystem true 2] :
      List (Op Unit (fun _ => Unit) Bool Nat))).updateCalls (16 : Nat) = [(2, 16), (1, 16)] ∧
    (run slotFront slotFront ([.createSystem false 1, .createSystem true 2] :
      List (Op Unit (fun _ => Unit) Bool Nat))).updateCalls (16 : Nat) ≠
      (createdSystems ([.createSystem false 1, .createSystem true 2] :
        List (Op Unit (fun _ => Unit) Bool Nat))).map (fun s => (s.2, 16)) := by
  constructor <;> decide

/-- C8, with the lookup of `getSystem` read as `systems.find(typeid(TSystem))` against
`systems.end()`: in every reachable manager state `getSystem<S>()` is absent when no
`createSystem<S>` call was made; `createSystem<S>` returns the object it stores and
`getSystem<S>()` then returns it; after a second `createSystem<S>` the manager returns the second
object, holds exactly one entry of type `S`, no longer holds the first object, and returns for
every other type what it returned before. -/
theorem createSystem_replaces (ops : List (Op C F T S)) (t : T) (s₁ s₂ : S) :
    (t ∉ (createdSystems ops).keys → (run slotC slotT ops).getSystem t = none) ∧
    ((run slotC slotT ops).createSystem slotT t s₁).2 = some s₁ ∧
    ((run slotC slotT ops).createSystem slotT t s₁).1.getSystem t = some s₁ ∧
    ((((run slotC slotT ops).createSystem slotT t s₁).1).createSystem slotT t s₂).2 = some s₂ ∧
    ((((run slotC slotT ops).createSystem slotT t s₁).1).createSystem slotT t s₂).1.getSystem t =
      some s₂ ∧
    ((((run slotC slotT ops).createSystem slotT t s₁).1).createSystem slotT t s₂).1.systems.keys.count
      t = 1 ∧
    (s₁ ≠ s₂ → (⟨t, s₁⟩ : Σ _ : T, S) ∉
      ((((run slotC slotT ops).createSystem slotT t s₁).1).createSystem slotT t s₂).1.systems) ∧
    ∀ t', t' ≠ t →
      ((((run slotC slotT ops).createSystem slotT t s₁).1).createSystem slotT t s₂).1.getSystem t' =
        (run slotC slotT ops).getSystem t' := by
  have h0 := systems_nodupKeys_run slotC slotT ops
  have h1 : (umapAssign slotT (run slotC slotT ops).systems t s₁).NodupKeys :=
    nodupKeys_umapAssign slotT h0 t s₁
  have h2 : (umapAssign slotT (umapAssign slotT (run slotC slotT ops).systems t s₁) t s₂).NodupKeys :=
    nodupKeys_umapAssign slotT h1 t s₂
  have hget : (umapAssign slotT (umapAssign slotT (run slotC slotT ops).systems t s₁) t
      s₂).dlookup t = some s₂ := dlookup_umapAssign_self slotT h1 t s₂
  refine ⟨?_, ?_, ?_, ?_, ?_, ?_, ?_, ?_⟩
  · intro ht
    exact List.dlookup_eq_none.mpr (fun hmem => ht (systems_keys_run slotC slotT ops t hmem))
  · exact dlookup_umapAssign_self slotT h0 t s₁
  · exact dlookup_umapAssign_self slotT h0 t s₁
  · exact hget
  · exact hget
  · have hmem : t ∈ (umapAssign slotT (umapAssign slotT (run slotC slotT ops).systems t s₁) t
        s₂).keys :=
      (mem_keys_umapAssign (V := fun _ => S) slotT _ t s₂ t).mpr (Or.inl rfl)
    exact List.count_eq_one_of_mem h2 hmem
  · intro hne hmem
    have := (List.mem_dlookup_iff h2).mpr hmem
    rw [hget] at this
    exact hne (Option.some.inj this).symm
  · intro t' hne
    show (umapAssign slotT (umapAssign slotT (run slotC slotT ops).systems t s₁) t s₂).dlookup t' =
      (run slotC slotT ops).systems.dlookup t'
    rw [dlookup_umapAssign_ne slotT h1 hne, dlookup_umapAssign_ne slotT h0 hne]

end SystemClaims

/-! ## Removal from a container and the component id counter -/

section RemovalLemmas

variable {F : Type}

theorem eraseP_key_eq_filter (f : Component F → Nat) (l : List (Component F)) (k : Nat)
    (h : (l.map f).Nodup) :
    l.eraseP (fun r => f r == k) = l.filter (fun r => f r != k) := by
  induction l with
  | nil => rfl
  | cons x xs ih =>
    rw [List.map_cons, List.nodup_cons] at h
    by_cases hx : f x = k
    · have hx' : (f x == k) = true := by simpa using hx
      have hx'' : (f x != k) = false := by simpa using hx
      simp only [List.eraseP_cons, List.filter_cons, hx', hx'', if_true, Bool.false_eq_true,
        if_false, cond_true]
      symm
      rw [List.filter_eq_self]
      intro r hr
      have : f r ≠ k := by
        intro hre
        apply h.1
        rw [hx, ← hre]
        exact List.mem_map_of_mem _ hr
      simpa using this
    · have hx' : (f x == k) = false := by simpa using hx
      have hx'' : (f x != k) = true := by simpa using hx
      simp only [List.eraseP_cons, List.filter_cons, hx', hx'', if_true, Bool.false_eq_true,
        if_false, cond_false, ih h.2]

theorem find_if_isSome_of_mem {α : Type} (p : α → Bool) {l : List α} {a : α} (ha : a ∈ l)
    (hp : p a = true) : ∃ i, find_if p l = some i := by
  cases h : find_if p l with
  | some i => exact ⟨i, rfl⟩
  | none =>
    have := (find_if_eq_none_iff p l).mp h a ha
    rw [hp] at this
    cases this

namespace ComponentContainer

theorem removeComponent_of_not_mem {c : ComponentContainer F} {e : Entity}
    (h : ∀ r ∈ c.components, r.entity ≠ e) : c.removeComponent e = c := by
  unfold removeComponent
  have : find_if (fun r => r.entity == e) c.components = none := by
    rw [find_if_eq_none_iff]
    intro r hr
    simpa using h r hr
  rw [this]

theorem removeComponentPtr_of_not_mem {c : ComponentContainer F} {r0 : Component F}
    (h : ∀ r ∈ c.components, r.componentId ≠ r0.componentId) : c.removeComponentPtr r0 = c := by
  unfold removeComponentPtr
  have : find_if (fun r => r.componentId == r0.componentId) c.components = none := by
    rw [find_if_eq_none_iff]
    intro r hr
    simpa using h r hr
  rw [this]

theorem removeComponent_of_mem {c : ComponentContainer F} {e : Entity} {r : Component F}
    (hr : r ∈ c.components) (he : r.entity = e) :
    c.removeComponent e =
      { components := c.components.eraseP (fun r => r.entity == e)
        lastComponentId := c.lastComponentId
        entityToComponent := refreshLoop [] 0 (c.components.eraseP (fun r => r.entity == e)) } := by
  obtain ⟨i, hi⟩ := find_if_isSome_of_mem (fun r => r.entity == e) hr (by simpa using he)
  have hcomp := components_removeComponent c e
  unfold removeComponent at hcomp ⊢
  rw [hi] at hcomp ⊢
  simp only [refreshComponentsCache] at hcomp ⊢
  rw [hcomp]

theorem removeComponentPtr_of_mem {c : ComponentContainer F} {r0 r : Component F}
    (hr : r ∈ c.components) (he : r.componentId = r0.componentId) :
    c.removeComponentPtr r0 =
      { components := c.components.eraseP (fun r => r.componentId == r0.componentId)
        lastComponentId := c.lastComponentId
        entityToComponent :=
          refreshLoop [] 0 (c.components.eraseP (fun r => r.componentId == r0.componentId)) } := by
  obtain ⟨i, hi⟩ := find_if_isSome_of_mem (fun r => r.componentId == r0.componentId) hr
    (by simpa using he)
  have hcomp := components_removeComponentPtr c r0
  unfold removeComponentPtr at hcomp ⊢
  rw [hi] at hcomp ⊢
  simp only [refreshComponentsCache] at hcomp ⊢
  rw [hcomp]

end ComponentContainer

theorem runStore_snoc (ops : List (StoreOp F)) (op : StoreOp F) :
    runStore (ops ++ [op]) = op.apply (runStore ops) := by
  simp [runStore, List.foldl_append]

theorem assignedFrom_append (c : ComponentContainer F) (ops₁ ops₂ : List (StoreOp F)) :
    assignedFrom c (ops₁ ++ ops₂) =
      assignedFrom c ops₁ ++ assignedFrom (ops₁.foldl StoreOp.apply c) ops₂ := by
  induction ops₁ generalizing c with
  | nil => rfl
  | cons op ops ih =>
    show _ ++ assignedFrom _ (ops ++ ops₂) = _
    rw [ih, ← List.append_assoc]
    rfl

theorem assigned_snoc (ops : List (StoreOp F)) (op : StoreOp F) :
    assigned (ops ++ [op]) = assigned ops ++ op.assigns (runStore ops) := by
  unfold assigned
  rw [assignedFrom_append]
  simp [assignedFrom, runStore]

theorem apply_components (c : ComponentContainer F) (op : StoreOp F) :
    (op.assigns c = [] ∧ (op.apply c).components.Sublist c.components ∧
        (op.apply c).lastComponentId = c.lastComponentId) ∨
      ∃ e a, op.assigns c = [c.lastComponentId] ∧
        (op.apply c).components =
          c.components ++ [{ componentId := c.lastComponentId, entity := e, fields := a }] ∧
        (op.apply c).lastComponentId = (c.lastComponentId + 1) % UINT_SIZE := by
  cases op with
  | createComponent e a =>
    by_cases hs : (c.getComponent e).isSome = true
    · left
      simp only [StoreOp.assigns, StoreOp.apply, hs, if_true,
        ComponentContainer.createComponent_of_isSome hs]
      exact ⟨trivial, List.Sublist.refl _, trivial⟩
    · right
      have hnone : c.getComponent e = none := by
        cases hg : c.getComponent e with
        | none => rfl
        | some i => simp [hg] at hs
      refine ⟨e, a, ?_, ?_, ?_⟩
      · simp [StoreOp.assigns, hs]
      · simp only [StoreOp.apply, ComponentContainer.createComponent_of_none hnone]
      · simp only [StoreOp.apply, ComponentContainer.createComponent_of_none hnone]
  | removeComponent e =>
    left
    refine ⟨rfl, ?_, ComponentContainer.lastComponentId_removeComponent c e⟩
    show (c.removeComponent e).components.Sublist _
    rw [ComponentContainer.components_removeComponent]
    exact List.eraseP_sublist _
  | removeComponentPtr r =>
    left
    refine ⟨rfl, ?_, ComponentContainer.lastComponentId_removeComponentPtr c r⟩
    show (c.removeComponentPtr r).components.Sublist _
    rw [ComponentContainer.components_removeComponentPtr]
    exact List.eraseP_sublist _

theorem lastComponentId_runStore (ops : List (StoreOp F)) :
    (runStore ops).lastComponentId = (assigned ops).length % UINT_SIZE := by
  induction ops using List.reverseRecOn with
  | nil => rfl
  | append_singleton ops op ih =>
    rw [runStore_snoc, assigned_snoc, List.length_append]
    rcases apply_components (runStore ops) op with ⟨h1, -, h3⟩ | ⟨e, a, h1, -, h3⟩
    · rw [h1, h3, ih]
      rfl
    · rw [h1, h3, ih]
      simp only [List.length_singleton, UINT_SIZE]
      omega

theorem assigned_eq (ops : List (StoreOp F)) :
    assigned ops = (List.range (assigned ops).length).map (fun i => i % UINT_SIZE) := by
  induction ops using List.reverseRecOn with
  | nil => rfl
  | append_singleton ops op ih =>
    rw [assigned_snoc, List.length_append]
    rcases apply_components (runStore ops) op with ⟨h1, -, -⟩ | ⟨e, a, h1, -, -⟩
    · rw [h1]
      simpa using ih
    · rw [h1, lastComponentId_runStore]
      simp only [List.length_singleton, List.range_succ, List.map_append, List.map_cons,
        List.map_nil]
      rw [← ih]

theorem componentId_mem_runStore (ops : List (StoreOp F)) :
    ∀ r ∈ (runStore ops).components,
      ∃ i, i < (assigned ops).length ∧ r.componentId = i % UINT_SIZE := by
  induction ops using List.reverseRecOn with
  | nil => intro r hr; cases hr
  | append_singleton ops op ih =>
    intro r hr
    rw [runStore_snoc] at hr
    rw [assigned_snoc, List.length_append]
    rcases apply_components (runStore ops) op with ⟨-, h2, -⟩ | ⟨e, a, h1, h2, -⟩
    · obtain ⟨i, hi, hri⟩ := ih r (h2.subset hr)
      exact ⟨i, by omega, hri⟩
    · rw [h2, List.mem_append, List.mem_singleton] at hr
      rcases hr with hr | hr
      · obtain ⟨i, hi, hri⟩ := ih r hr
        exact ⟨i, by omega, hri⟩
      · refine ⟨(assigned ops).length, by rw [h1]; simp, ?_⟩
        rw [hr]
        exact lastComponentId_runStore ops

theorem componentId_sorted_runStore (ops : List (StoreOp F))
    (h : (assigned ops).length ≤ UINT_SIZE) :
    ((runStore ops).components.map (·.componentId)).Pairwise (· < ·) := by
  induction ops using List.reverseRecOn with
  | nil => exact List.Pairwise.nil
  | append_singleton ops op ih =>
    rw [runStore_snoc]
    rw [assigned_snoc, List.length_append] at h
    rcases apply_components (runStore ops) op with ⟨-, h2, -⟩ | ⟨e, a, h1, h2, -⟩
    · exact (ih (by omega)).sublist (h2.map _)
    · rw [h1, List.length_singleton] at h
      rw [h2, List.map_append, List.pairwise_append]
      refine ⟨ih (by omega), by simp, ?_⟩
      intro x hx y hy
      simp only [List.map_cons, List.map_nil, List.mem_singleton] at hy
      obtain ⟨r, hr, rfl⟩ := List.mem_map.mp hx
      obtain ⟨i, hi, hri⟩ := componentId_mem_runStore ops r hr
      have hlast := lastComponentId_runStore ops
      rw [hy]
      show r.componentId < (runStore ops).lastComponentId
      rw [hri, hlast]
      simp only [UINT_SIZE] at h ⊢
      omega

end RemovalLemmas

section WrapAround

variable {F : Type}

theorem cycle_step (n : Nat) (a : F) :
    (({ components := [{ componentId := 0, entity := 1, fields := a }]
        lastComponentId := n
        entityToComponent := [(1, 0)] } : ComponentContainer F).createComponent 2
          a).removeComponent 2 =
      { components := [{ componentId := 0, entity := 1, fields := a }]
        lastComponentId := (n + 1) % UINT_SIZE
        entityToComponent := [(1, 0)] } := by
  simp [ComponentContainer.createComponent, ComponentContainer.getComponent, cacheFind,
    ComponentContainer.removeComponent, ComponentContainer.refreshComponentsCache,
    ComponentContainer.refreshLoop, cacheAssign, find_if]

theorem runStore_cycles (k : Nat) (a : F) :
    runStore ([StoreOp.createComponent 1 a] ++
        (List.replicate k [StoreOp.createComponent 2 a, StoreOp.removeComponent 2]).flatten) =
      { components := [{ componentId := 0, entity := 1, fields := a }]
        lastComponentId := (1 + k) % UINT_SIZE
        entityToComponent := [(1, 0)] } := by
  induction k with
  | zero => rfl
  | succ k ih =>
    rw [List.replicate_succ', List.flatten_append, List.flatten_singleton, ← List.append_assoc]
    unfold runStore at ih ⊢
    rw [List.foldl_append, ih]
    simp only [List.foldl_cons, List.foldl_nil, StoreOp.apply]
    rw [cycle_step]
    congr 1
    simp only [UINT_SIZE]
    omega

theorem runStore_wrapAround (k : Nat) (a : F) :
    runStore (wrapAround k a) =
      { components :=
          [{ componentId := 0, entity := 1, fields := a },
            { componentId := (1 + k) % UINT_SIZE, entity := 2, fields := a }]
        lastComponentId := ((1 + k) % UINT_SIZE + 1) % UINT_SIZE
        entityToComponent := [(1, 0), (2, 1)] } := by
  unfold wrapAround
  have h := runStore_cycles k a
  unfold runStore at h ⊢
  rw [List.foldl_append, h]
  simp [StoreOp.apply, ComponentContainer.createComponent, ComponentContainer.getComponent,
    cacheFind, ComponentContainer.refreshComponentsCache, ComponentContainer.refreshLoop,
    cacheAssign]

theorem runStore_wrapAround_full (a : F) :
    runStore (wrapAround (UINT_SIZE - 1) a) =
      { components :=
          [{ componentId := 0, entity := 1, fields := a },
            { componentId := 0, entity := 2, fields := a }]
        lastComponentId := 1
        entityToComponent := [(1, 0), (2, 1)] } := by
  have h0 : (1 + (UINT_SIZE - 1)) % UINT_SIZE = 0 := by
    unfold UINT_SIZE
    rfl
  have h1 : (0 + 1) % UINT_SIZE = 1 := by
    unfold UINT_SIZE
    rfl
  rw [runStore_wrapAround, h0, h1]

end WrapAround

section RemovalClaims

variable {F : Type}

theorem componentId_nodup_runStore (ops : List (StoreOp F))
    (h : (assigned ops).length ≤ UINT_SIZE) :
    ((runStore ops).components.map (·.componentId)).Nodup :=
  (componentId_sorted_runStore ops h).imp (fun hlt => Nat.ne_of_lt hlt)

/-- C11: in a reachable container state in which entity `e` has the record `r`,
`removeComponent(e)` removes that record and no other: afterwards `getComponent(e)` is absent,
`getComponents()` is one element shorter, holds no record of `e` and is the old sequence without
`r`, and for every other entity `getComponent` reads the record it read before. -/
theorem removeComponent_removes_one (ops : List (StoreOp F)) (e : Entity) (r : Component F)
    (hr : r ∈ (runStore ops).getComponents) (he : r.entity = e) :
    ((runStore ops).removeComponent e).getComponent e = none ∧
    ((runStore ops).removeComponent e).getComponents.length + 1 =
      (runStore ops).getComponents.length ∧
    (∀ r' ∈ ((runStore ops).removeComponent e).getComponents, r'.entity ≠ e) ∧
    (r :: ((runStore ops).removeComponent e).getComponents).Perm (runStore ops).getComponents ∧
    ((runStore ops).removeComponent e).getComponents.Sublist (runStore ops).getComponents ∧
    ∀ x, x ≠ e →
      ((runStore ops).removeComponent e).getComponentRecord x =
        (runStore ops).getComponentRecord x := by
  have hc := ComponentContainer.consistent_runStore ops
  have hc' := hc.removeComponent e
  have hp : (fun r : Component F => r.entity == e) r = true := by simpa using he
  have hcomp : ((runStore ops).removeComponent e).components =
      (runStore ops).components.eraseP (fun r => r.entity == e) :=
    ComponentContainer.components_removeComponent _ e
  have hno : ∀ r' ∈ ((runStore ops).removeComponent e).components, r'.entity ≠ e := by
    intro r' hr'
    rw [hcomp, eraseP_entity_eq_filter _ _ hc.2] at hr'
    simpa using (List.mem_filter.mp hr').2
  refine ⟨(hc'.getComponent_eq_none_iff e).mpr hno, ?_, hno, ?_, ?_, ?_⟩
  · show ((runStore ops).removeComponent e).components.length + 1 = (runStore ops).components.length
    have hr' : r ∈ (runStore ops).components := hr
    rw [hcomp, List.length_eraseP_of_mem (p := fun r => r.entity == e) hr' hp]
    have : 0 < (runStore ops).components.length := List.length_pos_of_mem hr'
    omega
  · show (r :: ((runStore ops).removeComponent e).components).Perm (runStore ops).components
    have hr' : r ∈ (runStore ops).components := hr
    obtain ⟨a, l₁, l₂, -, hpa, hl, hers⟩ :=
      List.exists_of_eraseP (p := fun r => r.entity == e) hr' hp
    have ha : a ∈ (runStore ops).components := by rw [hl]; simp
    have hae : a.entity = e := by simpa using hpa
    have har : a = r := List.inj_on_of_nodup_map hc.2 ha hr (by rw [hae, he])
    subst har
    rw [hcomp, hers, hl]
    exact List.perm_middle.symm
  · show ((runStore ops).removeComponent e).components.Sublist _
    rw [hcomp]
    exact List.eraseP_sublist _
  · intro x hx
    exact hc.getComponentRecord_foldl_removeComponent (by simpa using hx : x ∉ [e])

/-- Instance of C11: of the records of entities 1 and 2, `removeComponent(1)` removes the
first. -/
theorem removeComponent_removes_one_witness :
    ({ componentId := 0, entity := 1, fields := 5 } : Component Nat) ∈
      (runStore [StoreOp.createComponent 1 5, .createComponent 2 6]).getComponents ∧
    ((runStore [StoreOp.createComponent 1 (5 : Nat), .createComponent 2 6]).removeComponent
      1).getComponent 1 = none ∧
    ((runStore [StoreOp.createComponent 1 (5 : Nat), .createComponent 2 6]).removeComponent
      1).getComponents = [{ componentId := 1, entity := 2, fields := 6 }] :=
  ⟨by decide,
    (removeComponent_removes_one [StoreOp.createComponent 1 (5 : Nat), .createComponent 2 6] 1
      { componentId := 0, entity := 1, fields := 5 } (by decide) rfl).1,
    by decide⟩

/-- C12: removing an association that does not exist changes nothing.  In every reachable
container state, `removeComponent(e)` for an entity without record and `removeComponent(record)`
for a component id that no record has return the container as it was: same records, same cache,
same id counter.  Both are total: no error is raised. -/
theorem remove_absent_is_noop (ops : List (StoreOp F)) :
    (∀ e, (∀ r ∈ (runStore ops).getComponents, r.entity ≠ e) →
      (runStore ops).removeComponent e = runStore ops) ∧
    (∀ r0 : Component F,
      (∀ r ∈ (runStore ops).getComponents, r.componentId ≠ r0.componentId) →
        (runStore ops).removeComponentPtr r0 = runStore ops) :=
  ⟨fun _ h => ComponentContainer.removeComponent_of_not_mem h,
    fun _ h => ComponentContainer.removeComponentPtr_of_not_mem h⟩

/-- Instance of C12: a container with one record, of entity 1 and id 0; entity 2 and id 7 are
not there. -/
theorem remove_absent_is_noop_witness :
    (∀ r ∈ (runStore [StoreOp.createComponent 1 (5 : Nat)]).getComponents, r.entity ≠ 2) ∧
    (runStore [StoreOp.createComponent 1 (5 : Nat)]).removeComponent 2 =
      runStore [StoreOp.createComponent 1 (5 : Nat)] ∧
    (runStore [StoreOp.createComponent 1 (5 : Nat)]).removeComponentPtr
        { componentId := 7, entity := 1, fields := 5 } =
      runStore [StoreOp.createComponent 1 (5 : Nat)] :=
  ⟨by decide,
    (remove_absent_is_noop [StoreOp.createComponent 1 (5 : Nat)]).1 2 (by decide),
    (remove_absent_is_noop [StoreOp.createComponent 1 (5 : Nat)]).2
      { componentId := 7, entity := 1, fields := 5 } (by decide)⟩

/-- C13 (as amended): in a container state reached by a call sequence that appended at most
`2 ^ 32` records, if the record `r` of the container has the component id of the record value
`r0`, then `removeComponent(r0)` removes `r` and no other record: afterwards no record has that
id, every record with another id is still there, in the old order, and `getComponent` of the
entity of `r` is absent. -/
theorem removeComponentPtr_removes_one (ops : List (StoreOp F)) (r0 r : Component F)
    (hcount : (assigned ops).length ≤ UINT_SIZE)
    (hr : r ∈ (runStore ops).getComponents) (hid : r.componentId = r0.componentId) :
    (∀ r' ∈ ((runStore ops).removeComponentPtr r0).getComponents,
      r'.componentId ≠ r0.componentId) ∧
    (∀ r' ∈ (runStore ops).getComponents, r'.componentId ≠ r0.componentId →
      r' ∈ ((runStore ops).removeComponentPtr r0).getComponents) ∧
    ((runStore ops).removeComponentPtr r0).getComponents.Sublist (runStore ops).getComponents ∧
    (r :: ((runStore ops).removeComponentPtr r0).getComponents).Perm
      (runStore ops).getComponents ∧
    ((runStore ops).removeComponentPtr r0).getComponent r.entity = none := by
  have hc := ComponentContainer.consistent_runStore ops
  have hc' := hc.removeComponentPtr r0
  have hnd := componentId_nodup_runStore ops hcount
  have hp : (fun x : Component F => x.componentId == r0.componentId) r = true := by simpa using hid
  have hcomp : ((runStore ops).removeComponentPtr r0).components =
      (runStore ops).components.filter (fun x => x.componentId != r0.componentId) := by
    rw [ComponentContainer.components_removeComponentPtr]
    exact eraseP_key_eq_filter (fun x => x.componentId) _ _ hnd
  have hno : ∀ r' ∈ ((runStore ops).removeComponentPtr r0).components,
      r'.componentId ≠ r0.componentId := by
    intro r' hr'
    rw [hcomp] at hr'
    simpa using (List.mem_filter.mp hr').2
  refine ⟨hno, ?_, ?_, ?_, ?_⟩
  · intro r' hr' hne
    show r' ∈ ((runStore ops).removeComponentPtr r0).components
    rw [hcomp]
    exact List.mem_filter.mpr ⟨hr', by simpa using hne⟩
  · show ((runStore ops).removeComponentPtr r0).components.Sublist _
    rw [hcomp]
    exact List.filter_sublist _
  · show (r :: ((runStore ops).removeComponentPtr r0).components).Perm (runStore ops).components
    have hr' : r ∈ (runStore ops).components := hr
    obtain ⟨a, l₁, l₂, -, hpa, hl, hers⟩ :=
      List.exists_of_eraseP (p := fun x => x.componentId == r0.componentId) hr' hp
    have ha : a ∈ (runStore ops).components := by rw [hl]; simp
    have hai : a.componentId = r0.componentId := by simpa using hpa
    have har : a = r := List.inj_on_of_nodup_map hnd ha hr (by rw [hai, hid])
    subst har
    rw [ComponentContainer.components_removeComponentPtr, hers, hl]
    exact List.perm_middle.symm
  · rw [hc'.getComponent_eq_none_iff]
    intro r' hr' he'
    have hmem : r' ∈ (runStore ops).components := by
      rw [hcomp] at hr'
      exact (List.mem_filter.mp hr').1
    have : r' = r := List.inj_on_of_nodup_map hc.2 hmem hr he'
    exact hno r' hr' (by rw [this, hid])

/-- Instance of C13: the record with id 0 is removed through a record value that has id 0 and
other contents. -/
theorem removeComponentPtr_removes_one_witness :
    (assigned [StoreOp.createComponent 1 (5 : Nat), .createComponent 2 6]).length ≤ UINT_SIZE ∧
    ({ componentId := 0, entity := 1, fields := 5 } : Component Nat) ∈
      (runStore [StoreOp.createComponent 1 5, .createComponent 2 6]).getComponents ∧
    ((runStore [StoreOp.createComponent 1 (5 : Nat), .createComponent 2 6]).removeComponentPtr
      { componentId := 0, entity := 9, fields := 9 }).getComponent 1 = none :=
  ⟨by decide, by decide,
    (removeComponentPtr_removes_one [StoreOp.createComponent 1 (5 : Nat), .createComponent 2 6]
      { componentId := 0, entity := 9, fields := 9 } { componentId := 0, entity := 1, fields := 5 }
      (by decide) (by decide) rfl).2.2.2.2⟩

/-- C13, as stated, fails once the 32-bit id counter has wrapped.  After `wrapAround` the records
of entities 1 and 2 both have id 0; `removeComponent` of the first leaves the second, so a record
with that id is still in `getComponents()`. -/
theorem removeComponentPtr_leaves_equal_id :
    ({ componentId := 0, entity := 1, fields := () } : Component Unit) ∈
      (runStore (wrapAround (UINT_SIZE - 1) ())).getComponents ∧
    ((runStore (wrapAround (UINT_SIZE - 1) ())).removeComponentPtr
      { componentId := 0, entity := 1, fields := () }).getComponents =
      [{ componentId := 0, entity := 2, fields := () }] ∧
    ∃ r' ∈ ((runStore (wrapAround (UINT_SIZE - 1) ())).removeComponentPtr
      { componentId := 0, entity := 1, fields := () }).getComponents, r'.componentId = 0 := by
  rw [runStore_wrapAround_full]
  decide

/-- C15 (as amended): in a container state reached from an empty container by a call sequence
that appended at most `2 ^ 32` records, the records of `getComponents()` have pairwise distinct
component ids, every id in the container is one that was assigned, and the ids were assigned in
strictly increasing order, removed records included.  While fewer than `2 ^ 32` records were
appended, the counter, which is the id of the next record, is above every id assigned so far. -/
theorem componentIds_increasing (ops : List (StoreOp F))
    (h : (assigned ops).length ≤ UINT_SIZE) :
    ((runStore ops).getComponents.map (·.componentId)).Nodup ∧
    (assigned ops).Pairwise (· < ·) ∧
    (∀ r ∈ (runStore ops).getComponents, r.componentId ∈ assigned ops) ∧
    ((assigned ops).length < UINT_SIZE →
      ∀ i ∈ assigned ops, i < (runStore ops).lastComponentId) := by
  have heq := assigned_eq ops
  refine ⟨componentId_nodup_runStore ops h, ?_, ?_, ?_⟩
  · rw [heq, List.pairwise_map]
    refine List.Pairwise.imp_of_mem ?_ (List.pairwise_lt_range _)
    intro a b ha hb hab
    have ha' := List.mem_range.mp ha
    have hb' := List.mem_range.mp hb
    simp only [UINT_SIZE] at h ⊢
    omega
  · intro r hr
    obtain ⟨i, hi, hri⟩ := componentId_mem_runStore ops r hr
    rw [heq, hri]
    exact List.mem_map.mpr ⟨i, List.mem_range.mpr hi, rfl⟩
  · intro hlt i hi
    rw [heq] at hi
    obtain ⟨j, hj, rfl⟩ := List.mem_map.mp hi
    have hj' := List.mem_range.mp hj
    rw [lastComponentId_runStore]
    simp only [UINT_SIZE] at hlt ⊢
    omega

/-- Instance of C15: ids 0, 1, 2 are assigned, the record with id 0 is removed, and the records
left have ids 1 and 2. -/
theorem componentIds_increasing_witness :
    (assigned [StoreOp.createComponent 1 (5 : Nat), .createComponent 2 6, .removeComponent 1,
      .createComponent 1 7]).length ≤ UINT_SIZE ∧
    assigned [StoreOp.createComponent 1 (5 : Nat), .createComponent 2 6, .removeComponent 1,
      .createComponent 1 7] = [0, 1, 2] ∧
    ((runStore [StoreOp.createComponent 1 (5 : Nat), .createComponent 2 6, .removeComponent 1,
      .createComponent 1 7]).getComponents.map (·.componentId)).Nodup :=
  ⟨by decide, by decide,
    (componentIds_increasing [StoreOp.createComponent 1 (5 : Nat), .createComponent 2 6,
      .removeComponent 1, .createComponent 1 7] (by decide)).1⟩

/-- C15, as stated, fails once the 32-bit id counter has wrapped: after `wrapAround` the record
created last has id 0, the id of the first record, which is still in the container. -/
theorem componentId_assigned_twice :
    (runStore (wrapAround (UINT_SIZE - 1) ())).getComponents =
      [{ componentId := 0, entity := 1, fields := () },
        { componentId := 0, entity := 2, fields := () }] ∧
    ¬ ((runStore (wrapAround (UINT_SIZE - 1) ())).getComponents.map (·.componentId)).Nodup := by
  rw [runStore_wrapAround_full]
  decide

/-- C18 (as amended): in every reachable container state, `removeComponent(entity)` and
`removeComponent(record)` either leave `getComponents()` as it is or delete one record from it,
and the records that stay keep their order.  While the call sequence has appended at most
`2 ^ 32` records, `getComponents()` is sorted by strictly increasing component id. -/
theorem removal_keeps_order (ops : List (StoreOp F)) :
    (∀ e,
      ((runStore ops).removeComponent e).getComponents = (runStore ops).getComponents ∨
      ∃ l₁ a l₂, a.entity = e ∧ (runStore ops).getComponents = l₁ ++ a :: l₂ ∧
        ((runStore ops).removeComponent e).getComponents = l₁ ++ l₂) ∧
    (∀ r0 : Component F,
      ((runStore ops).removeComponentPtr r0).getComponents = (runStore ops).getComponents ∨
      ∃ l₁ a l₂, a.componentId = r0.componentId ∧ (runStore ops).getComponents = l₁ ++ a :: l₂ ∧
        ((runStore ops).removeComponentPtr r0).getComponents = l₁ ++ l₂) ∧
    ((assigned ops).length ≤ UINT_SIZE →
      ((runStore ops).getComponents.map (·.componentId)).Pairwise (· < ·)) := by
  refine ⟨?_, ?_, componentId_sorted_runStore ops⟩
  · intro e
    have hcomp := ComponentContainer.components_removeComponent (runStore ops) e
    rcases List.exists_or_eq_self_of_eraseP (fun r : Component F => r.entity == e)
      (runStore ops).components with h | ⟨a, l₁, l₂, -, hpa, hl, hers⟩
    · exact Or.inl (hcomp.trans h)
    · exact Or.inr ⟨l₁, a, l₂, by simpa using hpa, hl, hcomp.trans hers⟩
  · intro r0
    have hcomp := ComponentContainer.components_removeComponentPtr (runStore ops) r0
    rcases List.exists_or_eq_self_of_eraseP
      (fun r : Component F => r.componentId == r0.componentId)
      (runStore ops).components with h | ⟨a, l₁, l₂, -, hpa, hl, hers⟩
    · exact Or.inl (hcomp.trans h)
    · exact Or.inr ⟨l₁, a, l₂, by simpa using hpa, hl, hcomp.trans hers⟩

/-- Instance of C18: three records are appended and the middle one is removed; ids 0 and 2 stay,
in this order. -/
theorem removal_keeps_order_witness :
    (assigned [StoreOp.createComponent 1 (5 : Nat), .createComponent 2 6, .createComponent 3 7,
      .removeComponent 2]).length ≤ UINT_SIZE ∧
    (runStore [StoreOp.createComponent 1 (5 : Nat), .createComponent 2 6, .createComponent 3 7,
      .removeComponent 2]).getComponents.map (·.componentId) = [0, 2] ∧
    ((runStore [StoreOp.createComponent 1 (5 : Nat), .createComponent 2 6, .createComponent 3 7,
      .removeComponent 2]).getComponents.map (·.componentId)).Pairwise (· < ·) :=
  ⟨by decide, by decide,
    (removal_keeps_order [StoreOp.createComponent 1 (5 : Nat), .createComponent 2 6,
      .createComponent 3 7, .removeComponent 2]).2.2 (by decide)⟩

/-- C18, as stated, fails once the 32-bit id counter has wrapped: after `wrapAround` the ids in
`getComponents()` are 0 and 0, which is not a strictly increasing sequence. -/
theorem getComponents_not_sorted_after_wrap :
    (runStore (wrapAround (UINT_SIZE - 1) ())).getComponents.map (·.componentId) = [0, 0] ∧
    ¬ ((runStore (wrapAround (UINT_SIZE - 1) ())).getComponents.map
      (·.componentId)).Pairwise (· < ·) := by
  rw [runStore_wrapAround_full]
  decide

/-- C19 (as amended): in a container state reached by a call sequence that appended at most
`2 ^ 32` records, for every record `r` of `getComponents()`, `removeComponent(r)` and
`removeComponent(r.entity)` give the same container: same records, same cache, same id
counter. -/
theorem removeComponent_variants_agree (ops : List (StoreOp F)) (r : Component F)
    (hcount : (assigned ops).length ≤ UINT_SIZE) (hr : r ∈ (runStore ops).getComponents) :
    (runStore ops).removeComponentPtr r = (runStore ops).removeComponent r.entity := by
  have hc := ComponentContainer.consistent_runStore ops
  have hnd := componentId_nodup_runStore ops hcount
  rw [ComponentContainer.removeComponentPtr_of_mem hr rfl,
    ComponentContainer.removeComponent_of_mem hr rfl,
    eraseP_key_eq_filter (fun x => x.componentId) _ _ hnd, eraseP_entity_eq_filter _ _ hc.2]
  have hfilter : (runStore ops).components.filter (fun x => x.componentId != r.componentId) =
      (runStore ops).components.filter (fun x => x.entity != r.entity) := by
    apply List.filter_congr
    intro x hx
    by_cases hxr : x = r
    · subst hxr
      simp
    · have h1 : x.componentId ≠ r.componentId :=
        fun h => hxr (List.inj_on_of_nodup_map hnd hx hr h)
      have h2 : x.entity ≠ r.entity := fun h => hxr (List.inj_on_of_nodup_map hc.2 hx hr h)
      have e1 : (x.componentId != r.componentId) = true := by simpa using h1
      have e2 : (x.entity != r.entity) = true := by simpa using h2
      rw [e1, e2]
  rw [hfilter]

/-- Instance of C19: the record of entity 2, removed by id and removed by entity. -/
theorem removeComponent_variants_agree_witness :
    (assigned [StoreOp.createComponent 1 (5 : Nat), .createComponent 2 6]).length ≤ UINT_SIZE ∧
    ({ componentId := 1, entity := 2, fields := 6 } : Component Nat) ∈
      (runStore [StoreOp.createComponent 1 5, .createComponent 2 6]).getComponents ∧
    (runStore [StoreOp.createComponent 1 (5 : Nat), .createComponent 2 6]).removeComponentPtr
        { componentId := 1, entity := 2, fields := 6 } =
      (runStore [StoreOp.createComponent 1 (5 : Nat), .createComponent 2 6]).removeComponent 2 :=
  ⟨by decide, by decide,
    removeComponent_variants_agree [StoreOp.createComponent 1 (5 : Nat), .createComponent 2 6]
      { componentId := 1, entity := 2, fields := 6 } (by decide) (by decide)⟩

/-- C19, as stated, fails once the 32-bit id counter has wrapped.  After `wrapAround` the record
of entity 2 has id 0, as the record of entity 1 before it: removal by id takes the record of
entity 1, removal by entity takes the record of entity 2. -/
theorem removeComponent_variants_differ :
    ({ componentId := 0, entity := 2, fields := () } : Component Unit) ∈
      (runStore (wrapAround (UINT_SIZE - 1) ())).getComponents ∧
    ((runStore (wrapAround (UINT_SIZE - 1) ())).removeComponentPtr
      { componentId := 0, entity := 2, fields := () }).getComponents =
      [{ componentId := 0, entity := 2, fields := () }] ∧
    ((runStore (wrapAround (UINT_SIZE - 1) ())).removeComponent 2).getComponents =
      [{ componentId := 0, entity := 1, fields := () }] ∧
    (runStore (wrapAround (UINT_SIZE - 1) ())).removeComponentPtr
        { componentId := 0, entity := 2, fields := () } ≠
      (runStore (wrapAround (UINT_SIZE - 1) ())).removeComponent 2 := by
  rw [runStore_wrapAround_full]
  decide

end RemovalClaims

/-! ## Entity identifiers, attachment without a live entity, first record of a type -/

section EntityLemmas

variable {C : Type} [DecidableEq C] {F : C → Type} {T : Type} [DecidableEq T] {S : Type}
variable (slotC : C → List C → Nat) (slotT : T → List T → Nat)

theorem createEntity_snd (em : EntityManager C F T S) : em.createEntity.2 = em.lastEntityId :=
  rfl

theorem run_entities_sorted (ops : List (Op C F T S)) (h : createCount ops < UINT_SIZE) :
    (run slotC slotT ops).entities.Pairwise (· < ·) := by
  induction ops using List.reverseRecOn with
  | nil => exact List.Pairwise.nil
  | append_singleton ops op ih =>
    rw [run_snoc, apply_entities]
    rw [createCount_snoc] at h
    cases op with
    | createEntity =>
      simp only [Op.isCreateEntity, if_true] at h
      rw [List.pairwise_append]
      refine ⟨ih (by omega), List.pairwise_singleton _ _, ?_⟩
      intro x hx y hy
      simp only [List.mem_singleton] at hy
      obtain ⟨i, hi, hxi⟩ := run_entities_mem slotC slotT ops x hx
      have hlast := run_lastEntityId slotC slotT ops
      rw [hy]
      show x < (run slotC slotT ops).lastEntityId
      rw [hxi, hlast]
      show (1 + i) % UINT_SIZE < (1 + createCount ops) % UINT_SIZE
      simp only [UINT_SIZE] at h ⊢
      omega
    | update =>
      simp only [Op.isCreateEntity, Bool.false_eq_true, if_false, Nat.add_zero] at h
      exact (ih h).sublist (EntityManager.foldl_erase_sublist _ _)
    | _ =>
      simp only [Op.isCreateEntity, Bool.false_eq_true, if_false, Nat.add_zero] at h
      exact ih h

theorem getComponentsContainer_dlookup {em : EntityManager C F T S} (h : em.StoresOk) (k : C) :
    (EntityManager.getComponentsContainer slotC em k).1.componentContainers.dlookup k =
      some (EntityManager.getComponentsContainer slotC em k).2 := by
  unfold EntityManager.getComponentsContainer umapFind
  cases hf : em.componentContainers.dlookup k with
  | some c => exact hf
  | none =>
    have hk := List.dlookup_eq_none.mp hf
    show (umapInsertNew slotC em.componentContainers k ComponentContainer.empty).dlookup k = _
    rw [List.perm_dlookup k (nodupKeys_umapInsertNew slotC h.1 hk _)
      (List.nodupKeys_cons.mpr ⟨hk, h.1⟩) (perm_umapInsertNew slotC _ k _)]
    exact List.dlookup_cons_eq _ _ _

theorem getComponentRecord_createComponent {em : EntityManager C F T S} (h : em.StoresOk)
    (k : C) (e : Entity) (args : F k) (x : Entity) :
    EntityManager.getComponentRecord slotC (EntityManager.createComponent slotC em k e args) k x =
      ((EntityManager.getComponentsContainer slotC em k).2.createComponent e
        args).getComponentRecord x := by
  have hk : k ∈ (EntityManager.getComponentsContainer slotC em k).1.componentContainers.keys :=
    List.dlookup_isSome.mp (by rw [getComponentsContainer_dlookup slotC h k]; rfl)
  rw [EntityManager.getComponentRecord_eq]
  show (match (umapReplace (EntityManager.getComponentsContainer slotC em k).1.componentContainers k
      ((EntityManager.getComponentsContainer slotC em k).2.createComponent e args)).dlookup k with
    | some c => c.getComponentRecord x
    | none => none) = _
  rw [dlookup_umapReplace_self hk]

theorem createComponent_containers_congr (em em' : EntityManager C F T S)
    (h : em.componentContainers = em'.componentContainers) (k : C) (e : Entity) (args : F k) :
    (EntityManager.createComponent slotC em k e args).componentContainers =
      (EntityManager.createComponent slotC em' k e args).componentContainers := by
  unfold EntityManager.createComponent EntityManager.storeContainer
    EntityManager.getComponentsContainer
  rw [h]
  cases umapFind em'.componentContainers k <;> simp [h]

theorem createComponent_entities (em : EntityManager C F T S) (k : C) (e : Entity)
    (args : F k) :
    (EntityManager.createComponent slotC em k e args).entities = em.entities := by
  unfold EntityManager.createComponent EntityManager.storeContainer
  exact EntityManager.getComponentsContainer_entities slotC em k

theorem getComponentFront_snd (em : EntityManager C F T S) (k : C) :
    ((EntityManager.getComponentFront slotC em k).2 = none ↔
      (EntityManager.getComponents slotC em k).2 = []) ∧
    ∀ p, (EntityManager.getComponentFront slotC em k).2 = some p → p = Pointer.expired 0 := by
  by_cases hl : (EntityManager.getComponentsContainer slotC em k).2.getComponents = []
  · simp [EntityManager.getComponentFront, EntityManager.getComponents, hl]
  · have hlen : (EntityManager.getComponentsContainer slotC em k).2.getComponents.length ≠ 0 :=
      fun h => hl (List.length_eq_zero.mp h)
    have hres : (EntityManager.getComponentFront slotC em k).2 = some (Pointer.expired 0) := by
      simp [EntityManager.getComponentFront, hlen]
    rw [hres]
    refine ⟨⟨fun h => Option.noConfusion h, fun h => absurd h hl⟩, ?_⟩
    intro p hp
    exact (Option.some.inj hp).symm

end EntityLemmas

section EntityClaims

variable {C : Type} [DecidableEq C] {F : C → Type} {T : Type} [DecidableEq T] {S : Type}
variable (slotC : C → List C → Nat) (slotT : T → List T → Nat)

/-- C14 (as amended): `createEntity()` is total.  In every manager state reached by a call
sequence with fewer than `2 ^ 32 - 1` calls of `createEntity`, it returns a strictly positive
identifier, one more than the number of calls made before; `getEntities()` is the old vector with
that identifier appended, and the pending list, the containers and the systems are unchanged.
On a fresh manager the first call returns 1 and the second 2. -/
theorem createEntity_appends_positive (ops : List (Op C F T S))
    (h : createCount ops + 1 < UINT_SIZE) :
    1 ≤ ((run slotC slotT ops).createEntity).2 ∧
    ((run slotC slotT ops).createEntity).2 = createCount ops + 1 ∧
    ((run slotC slotT ops).createEntity).1.getEntities =
      (run slotC slotT ops).getEntities ++ [((run slotC slotT ops).createEntity).2] ∧
    ((run slotC slotT ops).createEntity).1.entitiesToRemove =
      (run slotC slotT ops).entitiesToRemove ∧
    ((run slotC slotT ops).createEntity).1.componentContainers =
      (run slotC slotT ops).componentContainers ∧
    ((run slotC slotT ops).createEntity).1.systems = (run slotC slotT ops).systems ∧
    ((EntityManager.init : EntityManager C F T S).createEntity).2 = 1 ∧
    (((EntityManager.init : EntityManager C F T S).createEntity).1.createEntity).2 = 2 := by
  have hid : ((run slotC slotT ops).createEntity).2 = createCount ops + 1 := by
    rw [createEntity_snd, run_lastEntityId]
    show (1 + createCount ops) % UINT_SIZE = createCount ops + 1
    simp only [UINT_SIZE] at h ⊢
    omega
  refine ⟨?_, hid, rfl, rfl, rfl, rfl, rfl, rfl⟩
  rw [hid]
  exact Nat.le_add_left 1 _

/-- Instance of C14: after two entities, one of them removed and flushed, the next identifier
is 3. -/
theorem createEntity_appends_positive_witness :
    createCount ([.createEntity, .createEntity, .removeEntity 1, .update] :
      List (Op Unit (fun _ => Unit) Unit Unit)) + 1 < UINT_SIZE ∧
    ((run slotFront slotFront ([.createEntity, .createEntity, .removeEntity 1, .update] :
      List (Op Unit (fun _ => Unit) Unit Unit))).createEntity).2 = 3 ∧
    ((run slotFront slotFront ([.createEntity, .createEntity, .removeEntity 1, .update] :
      List (Op Unit (fun _ => Unit) Unit Unit))).createEntity).1.getEntities = [2, 3] :=
  ⟨by decide,
    (createEntity_appends_positive slotFront slotFront
      ([.createEntity, .createEntity, .removeEntity 1, .update] :
        List (Op Unit (fun _ => Unit) Unit Unit)) (by decide)).2.1,
    by decide⟩

/-- C14, as stated, fails at the wrap of the 32-bit counter: after `2 ^ 32 - 1` calls of
`createEntity` the next call returns 0, the value reserved for "no entity". -/
theorem createEntity_returns_zero :
    ((run slotFront slotFront (List.replicate (UINT_SIZE - 1) .createEntity :
      List (Op Unit (fun _ => Unit) Unit Unit))).createEntity).2 = 0 := by
  rw [createEntity_snd, run_lastEntityId, createCount_replicate]
  unfold UINT_SIZE
  rfl

/-- C17 (as amended): in every manager state reached by a call sequence with fewer than
`2 ^ 32 - 1` calls of `createEntity`, `getEntities()` is strictly increasing, hence without
duplicates, and every element is at least 1 and below the counter `lastEntityId`. -/
theorem entities_increasing_below_counter (ops : List (Op C F T S))
    (h : createCount ops + 1 < UINT_SIZE) :
    (run slotC slotT ops).getEntities.Pairwise (· < ·) ∧
    (run slotC slotT ops).getEntities.Nodup ∧
    ∀ x ∈ (run slotC slotT ops).getEntities, 1 ≤ x ∧ x < (run slotC slotT ops).lastEntityId := by
  have hs := run_entities_sorted slotC slotT ops (by omega)
  refine ⟨hs, hs.imp (fun hlt => Nat.ne_of_lt hlt), ?_⟩
  intro x hx
  obtain ⟨i, hi, hxi⟩ := run_entities_mem slotC slotT ops x hx
  rw [run_lastEntityId, hxi]
  show 1 ≤ (1 + i) % UINT_SIZE ∧ (1 + i) % UINT_SIZE < (1 + createCount ops) % UINT_SIZE
  simp only [UINT_SIZE] at h ⊢
  omega

/-- Instance of C17: three entities are created and the second is removed and flushed. -/
theorem entities_increasing_below_counter_witness :
    createCount ([.createEntity, .createEntity, .createEntity, .removeEntity 2, .update] :
      List (Op Unit (fun _ => Unit) Unit Unit)) + 1 < UINT_SIZE ∧
    (run slotFront slotFront
      ([.createEntity, .createEntity, .createEntity, .removeEntity 2, .update] :
        List (Op Unit (fun _ => Unit) Unit Unit))).getEntities = [1, 3] ∧
    (run slotFront slotFront
      ([.createEntity, .createEntity, .createEntity, .removeEntity 2, .update] :
        List (Op Unit (fun _ => Unit) Unit Unit))).getEntities.Pairwise (· < ·) :=
  ⟨by decide, by decide,
    (entities_increasing_below_counter slotFront slotFront
      ([.createEntity, .createEntity, .createEntity, .removeEntity 2, .update] :
        List (Op Unit (fun _ => Unit) Unit Unit)) (by decide)).1⟩

/-- C17, as stated, fails at the wrap of the 32-bit counter: after `2 ^ 32 - 1` calls of
`createEntity` the counter is 0 while entity 1 is in `getEntities()`, so the elements are not
below the counter. -/
theorem entities_not_below_counter :
    (1 : Entity) ∈ (run slotFront slotFront (List.replicate (UINT_SIZE - 1) .createEntity :
      List (Op Unit (fun _ => Unit) Unit Unit))).getEntities ∧
    (run slotFront slotFront (List.replicate (UINT_SIZE - 1) .createEntity :
      List (Op Unit (fun _ => Unit) Unit Unit))).lastEntityId = 0 := by
  constructor
  · rw [EntityManager.getEntities_eq,
      (run_replicate_createEntity (F := fun _ => Unit) (S := Unit)
        (slotFront : Unit → List Unit → Nat) (slotFront : Unit → List Unit → Nat)
        (UINT_SIZE - 1)).1]
    exact List.mem_map.mpr ⟨0, List.mem_range.mpr (by unfold UINT_SIZE; omega), rfl⟩
  · rw [run_lastEntityId, createCount_replicate]
    unfold UINT_SIZE
    rfl

/-- C20: attaching a component does not look at the entity vector.  In every reachable manager
state, for an entity value `e` that is not in `getEntities()` and has no record of type `k`,
`createComponent<k>(e, args)` appends a record as it would for a live entity: afterwards
`getComponent<k>(e)` reads a record with entity `e` and fields `args`, the containers are the
ones the call produces when `e` is in the entity vector, and `getEntities()` is unchanged. -/
theorem createComponent_ignores_liveness (ops : List (Op C F T S)) (k : C) (e : Entity)
    (args : F k) (hlive : e ∉ (run slotC slotT ops).getEntities)
    (hno : (EntityManager.getComponent slotC (run slotC slotT ops) k e).2 = none) :
    (∃ id, EntityManager.getComponentRecord slotC
        (EntityManager.createComponent slotC (run slotC slotT ops) k e args) k e =
      some { componentId := id, entity := e, fields := args }) ∧
    (EntityManager.createComponent slotC (run slotC slotT ops) k e args).getEntities =
      (run slotC slotT ops).getEntities ∧
    e ∉ (EntityManager.createComponent slotC (run slotC slotT ops) k e args).getEntities ∧
    (EntityManager.createComponent slotC (run slotC slotT ops) k e args).componentContainers =
      (EntityManager.createComponent slotC
        { run slotC slotT ops with entities := e :: (run slotC slotT ops).entities } k e
        args).componentContainers := by
  have hok := storesOk_run slotC slotT ops
  have hc := (hok.getComponentsContainer slotC k).2
  have hent := createComponent_entities slotC (run slotC slotT ops) k e args
  refine ⟨?_, hent, ?_, ?_⟩
  · refine ⟨(EntityManager.getComponentsContainer slotC (run slotC slotT ops) k).2.lastComponentId,
      ?_⟩
    rw [getComponentRecord_createComponent slotC hok]
    have hnone : (EntityManager.getComponentsContainer slotC (run slotC slotT ops) k).2.getComponent
        e = none := hno
    exact (hc.getComponentRecord_createComponent_new
      ((hc.getComponent_eq_none_iff e).mp hnone) args).2
  · rw [EntityManager.getEntities_eq, hent]
    exact hlive
  · exact createComponent_containers_congr slotC (run slotC slotT ops)
      { run slotC slotT ops with entities := e :: (run slotC slotT ops).entities } rfl k e args

/-- Instance of C20: the value 0, with no entity created at all, gets a component. -/
theorem createComponent_ignores_liveness_witness :
    (0 : Entity) ∉ (run slotFront slotFront
      ([] : List (Op Unit (fun _ => Nat) Unit Unit))).getEntities ∧
    (EntityManager.getComponent slotFront (run slotFront slotFront
      ([] : List (Op Unit (fun _ => Nat) Unit Unit))) () 0).2 = none ∧
    EntityManager.getComponentRecord slotFront
      (EntityManager.createComponent slotFront (run slotFront slotFront
        ([] : List (Op Unit (fun _ => Nat) Unit Unit))) () 0 7) () 0 =
      some { componentId := 0, entity := 0, fields := 7 } ∧
    (EntityManager.createComponent slotFront (run slotFront slotFront
      ([] : List (Op Unit (fun _ => Nat) Unit Unit))) () 0 7).getEntities = [] :=
  ⟨by decide, by decide, by decide,
    (createComponent_ignores_liveness slotFront slotFront
      ([] : List (Op Unit (fun _ => Nat) Unit Unit)) () 0 7 (by decide) (by decide)).2.1⟩

/-- C16, evaluated where the code leaves the claim: with one record of entity 1, the pointer
that `getComponent<TComponent>()` returns is not absent, and it is the address of element 0 of
the local copy of the record vector, which is destroyed on return, so that nothing is read
through it, whereas `getComponent<TComponent>(1)` points at position 0 of the container's own
vector and reads the record.  The claim's test for absence holds in every state. -/
theorem getComponentFront_points_into_copy :
    (EntityManager.getComponentFront slotFront
      (run slotFront slotFront ([.createEntity, .createComponent () 1 10] :
        List (Op Unit (fun _ => Nat) Unit Unit))) ()).2 = some (Pointer.expired 0) ∧
    Pointer.read
      (EntityManager.getComponentsContainer slotFront
        (run slotFront slotFront ([.createEntity, .createComponent () 1 10] :
          List (Op Unit (fun _ => Nat) Unit Unit))) ()).2 (Pointer.expired 0) = none ∧
    (EntityManager.getComponent slotFront
      (run slotFront slotFront ([.createEntity, .createComponent () 1 10] :
        List (Op Unit (fun _ => Nat) Unit Unit))) () 1).2 = some 0 ∧
    Pointer.read
      (EntityManager.getComponentsContainer slotFront
        (run slotFront slotFront ([.createEntity, .createComponent () 1 10] :
          List (Op Unit (fun _ => Nat) Unit Unit))) ()).2 (Pointer.stored 0) =
      some { componentId := 0, entity := 1, fields := 10 } ∧
    ∀ (em : EntityManager Unit (fun _ => Nat) Unit Unit),
      ((EntityManager.getComponentFront slotFront em ()).2 = none ↔
        (EntityManager.getComponents slotFront em ()).2 = []) ∧
      ∀ i, (EntityManager.getComponentFront slotFront em ()).2 ≠ some (Pointer.stored i) := by
  refine ⟨by decide, by decide, by decide, by decide, ?_⟩
  intro em
  refine ⟨(getComponentFront_snd slotFront em ()).1, ?_⟩
  intro i hi
  have := (getComponentFront_snd slotFront em ()).2 _ hi
  cases this

end EntityClaims

end ECS
